import Mathlib

/-!
Verification development for the Excel template population engine
(`data scripts/populate_estimates.py`).

The Python program is shallowly embedded: JSON-like dynamic values become
the inductive type `PyVal`, Python floats become `PyFloat` (a tagged type
with NaN, the two infinities, and finite decimal values `m / 10 ^ e`),
strings are Lean `String`s processed as `List Char`, and the openpyxl
worksheet becomes the state record `Ws` (a cell-value function plus the
`max_row` / `max_column` dimensions).  All definitions follow the Python
source line by line; deviations forced by the embedding (Unicode
lower-casing outside ASCII, the decimal-rendering of floats in branches
no claim reaches, IEEE rounding above 2^53) are noted where they occur.
-/

set_option maxRecDepth 10000

/-- Python float, modelled as NaN, the infinities, or a finite decimal
value `mant / 10 ^ exp10`.  Every float the program manipulates is either
a parsed decimal literal, a converted int, or a value carried through
unchanged, so finite values are represented exactly by such pairs.
IEEE-754 rounding (relevant only above 2^53) is not modelled. -/
inductive PyFloat where
  | nan : PyFloat
  | inf : PyFloat
  | neginf : PyFloat
  | finite (mant : Int) (exp10 : Nat) : PyFloat
deriving DecidableEq, Repr

/-- Dynamic (JSON-like) Python value: the shapes `json.load` can produce
plus `None`.  Dict keys are strings, as in the JSON payloads involved. -/
inductive PyVal where
  | none : PyVal
  | bool (b : Bool) : PyVal
  | int (n : Int) : PyVal
  | float (f : PyFloat) : PyVal
  | str (s : String) : PyVal
  | list (xs : List PyVal) : PyVal
  | dict (kvs : List (String × PyVal)) : PyVal

/-- `True` exactly for the finite constructor of `PyFloat`. -/
def PyFloat.isFinite : PyFloat → Bool
  | .finite _ _ => true
  | _ => false

/-- The largest finite double, `1.7976931348623157e308`, as the bound used
in the source at line 56: a finite value `m / 10 ^ e` has magnitude within
the double range iff `|m| ≤ 17976931348623157 * 10 ^ (292 + e)`. -/
def inDoubleRange (m : Int) (e : Nat) : Bool :=
  m.natAbs ≤ 17976931348623157 * 10 ^ (292 + e)

/-- Whitespace as recognised by CPython for both `str.strip` and the
regex class `\s` (the interpreter uses `Py_UNICODE_ISSPACE` for both):
the ASCII whitespace, the C1 controls `\x1c`-`\x1f`, `\x85`, NBSP, and
the Unicode space separators. -/
def isPySpace (c : Char) : Bool :=
  c.toNat = 0x20 ∨ (0x9 ≤ c.toNat ∧ c.toNat ≤ 0xD) ∨
  (0x1C ≤ c.toNat ∧ c.toNat ≤ 0x1F) ∨ c.toNat = 0x85 ∨ c.toNat = 0xA0 ∨
  c.toNat = 0x1680 ∨ (0x2000 ≤ c.toNat ∧ c.toNat ≤ 0x200A) ∨
  c.toNat = 0x2028 ∨ c.toNat = 0x2029 ∨ c.toNat = 0x202F ∨
  c.toNat = 0x205F ∨ c.toNat = 0x3000

/-- Python `str.lower`, restricted to the ASCII plane (every string the
program builds its header dictionary from is ASCII; non-ASCII letters are
left unchanged by this model). -/
def pyLowerChar (c : Char) : Char :=
  if 0x41 ≤ c.toNat ∧ c.toNat ≤ 0x5A then Char.ofNat (c.toNat + 32) else c

/-- The dash characters of the regex class in `norm`
(`[–—\-–—]`, i.e. en dash, em dash and the ASCII hyphen). -/
def isDashChar (c : Char) : Bool :=
  c = '–' ∨ c = '—' ∨ c = '-'

/-- The characters `norm` keeps: the class `[a-z0-9#/\.\-\s()]`. -/
def isAllowedChar (c : Char) : Bool :=
  (0x61 ≤ c.toNat ∧ c.toNat ≤ 0x7A) ∨ (0x30 ≤ c.toNat ∧ c.toNat ≤ 0x39) ∨
  c = '#' ∨ c = '/' ∨ c = '.' ∨ c = '-' ∨ c = '(' ∨ c = ')' ∨ isPySpace c

/-- Python `str.strip()`: drop leading and trailing whitespace. -/
def stripChars (l : List Char) : List Char :=
  ((l.dropWhile isPySpace).reverse.dropWhile isPySpace).reverse

/-- The newline replacement of `norm` line 16: `s.replace("\n", " ")`. -/
def nlChar (c : Char) : Char := if c = '\n' then ' ' else c

/-- Replace every maximal run of characters satisfying `p` by the single
character `rep`: the effect of `re.sub(cls + "+", rep, s)` for a
character class `cls`. -/
def collapseRuns (p : Char → Bool) (rep : Char) : List Char → List Char
  | [] => []
  | [c] => [if p c then rep else c]
  | c1 :: c2 :: cs =>
    if p c1 ∧ p c2 then collapseRuns p rep (c2 :: cs)
    else (if p c1 then rep else c1) :: collapseRuns p rep (c2 :: cs)

/-- `norm` from the source (lines 14-20) at the character-list level:
strip, lower-case, newlines to spaces, dash runs to a single `-`, drop
characters outside the allowed class, collapse whitespace runs. -/
def normChars (l : List Char) : List Char :=
  collapseRuns isPySpace ' '
    (List.filter isAllowedChar
      (collapseRuns isDashChar '-'
        (((stripChars l).map pyLowerChar).map nlChar)))

/-- `norm` on strings. -/
def normS (s : String) : String :=
  String.mk (normChars s.toList)

/-- The control characters removed by `safe_excel_value` from strings:
NUL together with the class `[\x01-\x08\x0B\x0C\x0E-\x1F\x7F-\x9F]`. -/
def strippedCtrl (c : Char) : Bool :=
  c.toNat ≤ 0x8 ∨ c.toNat = 0xB ∨ c.toNat = 0xC ∨
  (0xE ≤ c.toNat ∧ c.toNat ≤ 0x1F) ∨ (0x7F ≤ c.toNat ∧ c.toNat ≤ 0x9F)

/-- The string branch of `safe_excel_value` (lines 63-70): remove NUL and
the control-character class, then truncate to 32767 characters. -/
def sanitizeStr (s : String) : String :=
  String.mk ((s.toList.filter (fun c => !strippedCtrl c)).take 32767)

/-- Rendering of a float by `str` / `repr`.  Only the NaN and infinity
cases are ever produced by Python code paths the claims reach (the finite
case feeds the out-of-double-range branch, which cannot fire for an
actual IEEE double); the finite rendering here is schematic. -/
def floatRepr : PyFloat → String
  | .nan => "nan"
  | .inf => "inf"
  | .neginf => "-inf"
  | .finite m 0 => toString m ++ ".0"
  | .finite m e => toString m ++ "e-" ++ toString e

/-- JSON string escaping as done by `json.dumps` with
`ensure_ascii=False`: backslash, double quote, and the C0 controls. -/
def jsonEscapeChar (c : Char) : List Char :=
  if c = '\\' then ['\\', '\\']
  else if c = '"' then ['\\', '"']
  else if c = '\n' then ['\\', 'n']
  else if c = '\t' then ['\\', 't']
  else if c = '\r' then ['\\', 'r']
  else if c.toNat = 0x8 then ['\\', 'b']
  else if c.toNat = 0xC then ['\\', 'f']
  else if c.toNat < 0x20 then
    ['\\', 'u', '0', '0',
     Char.ofNat (if c.toNat / 16 < 10 then 48 + c.toNat / 16 else 87 + c.toNat / 16),
     Char.ofNat (if c.toNat % 16 < 10 then 48 + c.toNat % 16 else 87 + c.toNat % 16)]
  else [c]

/-- JSON string literal. -/
def jsonQuote (s : String) : String :=
  String.mk ('"' :: s.toList.flatMap jsonEscapeChar ++ ['"'])

/-- Float rendering used by `json.dumps` (NaN and the infinities are
emitted by Python as the bare words below). -/
def jsonFloatRepr : PyFloat → String
  | .nan => "NaN"
  | .inf => "Infinity"
  | .neginf => "-Infinity"
  | f => floatRepr f

mutual

/-- `json.dumps(value, ensure_ascii=False)` on the embedded values, with
the default separators `", "` and `": "`. -/
def jsonDumps : PyVal → String
  | .none => "null"
  | .bool b => if b then "true" else "false"
  | .int n => toString n
  | .float f => jsonFloatRepr f
  | .str s => jsonQuote s
  | .list xs => "[" ++ jsonDumpsList xs ++ "]"
  | .dict kvs => "\x7b" ++ jsonDumpsDict kvs ++ "\x7d"

/-- Comma-separated dump of a list of values. -/
def jsonDumpsList : List PyVal → String
  | [] => ""
  | [x] => jsonDumps x
  | x :: xs => jsonDumps x ++ ", " ++ jsonDumpsList xs

/-- Comma-separated dump of the key/value pairs of an object. -/
def jsonDumpsDict : List (String × PyVal) → String
  | [] => ""
  | [kv] => jsonQuote kv.1 ++ ": " ++ jsonDumps kv.2
  | kv :: kvs => jsonQuote kv.1 ++ ": " ++ jsonDumps kv.2 ++ ", " ++ jsonDumpsDict kvs

end

/-- `safe_excel_value` (lines 48-94).  In Python a `bool` satisfies
`isinstance(value, (int, float))` and is returned unchanged by the
numeric branch at line 58, which coincides with the dedicated `bool`
case below; the dead `isinstance(value, bool)` branch at line 60 returns
the same value.  The `try/except` fallbacks around `json.dumps` are
unreachable here because every embedded value is serialisable. -/
def safe_excel_value : PyVal → PyVal
  | .none => .none
  | .bool b => .bool b
  | .int n => .int n
  | .float .nan => .none
  | .float .inf => .none
  | .float .neginf => .none
  | .float (.finite m e) =>
    if inDoubleRange m e then .float (.finite m e)
    else .str (floatRepr (.finite m e))
  | .str s => .str (sanitizeStr s)
  | .list xs =>
    if xs.all (fun x => match x with | .str _ => true | _ => false) then
      .str (sanitizeStr (String.intercalate " | "
        (xs.map (fun x => match x with | .str s => s | _ => ""))))
    else
      .str (sanitizeStr (jsonDumps (.list xs)))
  | .dict kvs => .str (sanitizeStr (jsonDumps (.dict kvs)))

/-- Decimal digit test. -/
def isDigitC (c : Char) : Bool :=
  0x30 ≤ c.toNat ∧ c.toNat ≤ 0x39

/-- Numeric value of a digit character. -/
def digitVal (c : Char) : Nat := c.toNat - 0x30

/-- Consume a digit sequence, allowing single underscores strictly
between digits as Python numeric literals do.  Returns the accumulated
value, the number of digits consumed, and the rest of the input. -/
def takeUDigits (acc cnt : Nat) : List Char → Nat × Nat × List Char
  | [] => (acc, cnt, [])
  | c :: cs =>
    if isDigitC c then takeUDigits (acc * 10 + digitVal c) (cnt + 1) cs
    else if c = '_' then
      match cs with
      | d :: cs2 =>
        if isDigitC d then takeUDigits (acc * 10 + digitVal d) (cnt + 1) cs2
        else (acc, cnt, c :: cs)
      | [] => (acc, cnt, [c])
    else (acc, cnt, c :: cs)
termination_by l => l.length

/-- Mantissa of a Python float literal: either `digits [. digits?]` or
`. digits`.  Returns the mantissa value, the count of fractional digits,
and the rest. -/
def parseMantissa : List Char → Option (Nat × Nat × List Char)
  | '.' :: rest =>
    if rest.head?.any isDigitC then
      let r := takeUDigits 0 0 rest
      some (r.1, r.2.1, r.2.2)
    else Option.none
  | l =>
    if l.head?.any isDigitC then
      let r := takeUDigits 0 0 l
      match r.2.2 with
      | '.' :: r2 =>
        if r2.head?.any isDigitC then
          let r3 := takeUDigits r.1 0 r2
          some (r3.1, r3.2.1, r3.2.2)
        else some (r.1, 0, r2)
      | rest => some (r.1, 0, rest)
    else Option.none

/-- The exponent tail after `e` / `E`: optional sign then digits. -/
def parseExpTail (l : List Char) : Option (Int × List Char) :=
  let sr : Int × List Char :=
    match l with
    | c :: rest => if c = '+' then (1, rest) else if c = '-' then (-1, rest) else (1, l)
    | [] => (1, [])
  if sr.2.head?.any isDigitC then
    let r := takeUDigits 0 0 sr.2
    some (sr.1 * (r.1 : Int), r.2.2)
  else Option.none

/-- Floor of the base-2 logarithm, by structural recursion on a fuel
argument (the fuel `n` itself always suffices). -/
def log2fuel : Nat → Nat → Nat
  | 0, _ => 0
  | fuel + 1, n => if n < 2 then 0 else log2fuel fuel (n / 2) + 1

/-- Round the ratio `num / den` to the nearest integer, ties to even —
the rounding CPython uses for every conversion to double. -/
def rnHalfEven (num den : Nat) : Nat :=
  let m := num / den
  let r := num % den
  if den < 2 * r ∨ (2 * r = den ∧ m % 2 = 1) then m + 1 else m

/-- `⌊log2 (p / q)⌋` for positive naturals (may be negative). -/
def ratLog2 (p q : Nat) : Int :=
  let e0 : Int := (log2fuel p p : Int) - (log2fuel q q : Int)
  if q * 2 ^ e0.toNat ≤ p * 2 ^ (-e0).toNat then e0 else e0 - 1

/-- Round the positive rational `p / q` (`p, q ≥ 1`) to the nearest
IEEE-754 double, ties to even: the exact semantics of CPython's
int-to-float and string-to-float conversions, including gradual
underflow to zero and overflow to infinity at `2^1024 - 2^970`.  The
resulting double is returned as an exact decimal (`m * 2^s` is an
integer for `s ≥ 0` and `m * 5^|s| / 10^|s|` otherwise). -/
def roundPosRatToDouble (p q : Nat) : PyFloat :=
  let E := ratLog2 p q
  let shift : Int := if E < -1022 then -1074 else E - 52
  let m := if 0 ≤ shift
    then rnHalfEven p (q * 2 ^ shift.toNat)
    else rnHalfEven (p * 2 ^ (-shift).toNat) q
  if m = 0 then .finite 0 0
  else if 0 ≤ shift then
    (if 2 ^ 1024 ≤ m * 2 ^ shift.toNat then .inf
     else .finite ((m : Int) * 2 ^ shift.toNat) 0)
  else .finite ((m : Int) * 5 ^ (-shift).toNat) ((-shift).toNat)

/-- Negation of a float value (for the parsed sign; the sign of a zero
is not tracked, as nothing in the program distinguishes `-0.0`). -/
def negPyFloat : PyFloat → PyFloat
  | .finite m e => .finite (-m) e
  | .inf => .neginf
  | .neginf => .inf
  | .nan => .nan

/-- `float(int)` at source line 103: the correctly rounded double, or
`none` for the `OverflowError` CPython raises when the rounded value
would be infinite. -/
def pyFloatOfInt (n : Int) : Option PyFloat :=
  if n = 0 then some (.finite 0 0)
  else
    match roundPosRatToDouble n.natAbs 1 with
    | .inf => Option.none
    | .finite m e => some (if n < 0 then negPyFloat (.finite m e) else .finite m e)
    | _ => Option.none

/-- Build the value `sgn * m * 10 ^ ex / 10 ^ fc` of a parsed decimal
literal, correctly rounded to the nearest double as CPython's
string-to-float conversion does (strings never raise: overflow gives
the signed infinity, underflow gives zero). -/
def finishFloat (sgn : Int) (m fc : Nat) (ex : Int) : PyFloat :=
  if m = 0 then .finite 0 0
  else
    let net : Int := ex - (fc : Int)
    let f := if 0 ≤ net then roundPosRatToDouble (m * 10 ^ net.toNat) 1
             else roundPosRatToDouble m (10 ^ (-net).toNat)
    if sgn < 0 then negPyFloat f else f

/-- Python `float(string)` on an already-stripped string: optional sign,
then `inf` / `infinity` / `nan` (case-insensitive) or a decimal literal
with optional exponent; the whole input must be consumed.  Digits are
recognised in ASCII only — CPython also maps every other Unicode
decimal digit to its value, which this model does not cover, so the
claims over strings are stated for ASCII inputs. -/
def parsePyFloat (l0 : List Char) : Option PyFloat :=
  let sl : Int × List Char :=
    match l0 with
    | c :: rest => if c = '+' then (1, rest) else if c = '-' then (-1, rest) else (1, l0)
    | [] => (1, [])
  let low := sl.2.map pyLowerChar
  if low = "inf".toList ∨ low = "infinity".toList then
    some (if sl.1 = 1 then .inf else .neginf)
  else if low = "nan".toList then some .nan
  else
    match parseMantissa sl.2 with
    | Option.none => Option.none
    | some (m, fc, r1) =>
      match r1 with
      | [] => some (finishFloat sl.1 m fc 0)
      | c :: rest =>
        if c = 'e' ∨ c = 'E' then
          match parseExpTail rest with
          | some (ex, []) => some (finishFloat sl.1 m fc ex)
          | _ => Option.none
        else Option.none

/-- `safe_numeric_convert` (lines 96-117).  The equality test
`value == ""` at line 97 only succeeds on the empty string; a Python
`bool` reaches the numeric branch (`float(True) == 1.0`); `float(int)`
at line 103 raises `OverflowError` for ints beyond the double range —
the function has no handler for it, so the error propagates to the
caller and is modelled as the `Except.error` result; `float(str)` never
raises `OverflowError` (it returns the infinity, rejected at line
111). -/
def safe_numeric_convert : PyVal → Except String (Option PyFloat)
  | .none => .ok Option.none
  | .bool b => .ok (some (.finite (if b then 1 else 0) 0))
  | .int n =>
    match pyFloatOfInt n with
    | some f => .ok (some f)
    | Option.none => .error "int too large to convert to float"
  | .float .nan => .ok Option.none
  | .float .inf => .ok Option.none
  | .float .neginf => .ok Option.none
  | .float (.finite m e) => .ok (some (.finite m e))
  | .str s =>
    if s = "" then .ok Option.none
    else if stripChars s.toList = [] then .ok Option.none
    else
      .ok (match parsePyFloat (stripChars s.toList) with
        | some (.finite m e) => some (.finite m e)
        | some _ => Option.none
        | Option.none => Option.none)
  | _ => .ok Option.none

/-- Truthiness of a Python value (`bool(value)`), used by the
`row.get("hours", {}) or {}` idiom.  NaN and the infinities are truthy;
`0.0` is falsy. -/
def pyTruthy : PyVal → Bool
  | .none => false
  | .bool b => b
  | .int n => n ≠ 0
  | .float (.finite m _) => m ≠ 0
  | .float _ => true
  | .str s => s ≠ ""
  | .list xs => ¬ xs.isEmpty
  | .dict kvs => ¬ kvs.isEmpty

/-- Python `dict.get(k)` with default `None`; also used to read a
flattened mapping, where an explicitly stored `None` and an absent key
are indistinguishable, exactly as for `dict.get`. -/
def pyGet (kvs : List (String × PyVal)) (k : String) : PyVal :=
  match kvs.lookup k with
  | some v => v
  | Option.none => .none

/-- The simple (non-nested) fields copied verbatim by `flatten_row`. -/
def simple_fields : List String :=
  ["platform", "module", "component", "feature", "make_or_reuse", "complexity",
   "num_components"]

/-- The eight hour buckets of `flatten_row`. -/
def hour_fields : List String :=
  ["ui_design", "ui_module", "backend_logic", "general",
   "service_api", "db_structure", "db_programming", "db_udf"]

/-- `flatten_row` (lines 119-144): copy the simple fields that are
present, always emit the two `previous_project_actual` dotted keys
(as `None` when that mapping is absent or not a dict), and always emit
the eight hour buckets with default `0`. -/
def flatten_row (row : List (String × PyVal)) : List (String × PyVal) :=
  let simples := simple_fields.filterMap (fun k =>
    match row.lookup k with
    | some v => some (k, v)
    | Option.none => Option.none)
  let ppa :=
    match row.lookup "previous_project_actual" with
    | some (.dict p) =>
      [("previous_project_actual.project_name", pyGet p "project_name"),
       ("previous_project_actual.actual_working_days", pyGet p "actual_working_days")]
    | _ =>
      [("previous_project_actual.project_name", PyVal.none),
       ("previous_project_actual.actual_working_days", PyVal.none)]
  let hours0 := pyGet row "hours"
  let hours := if pyTruthy hours0 then hours0 else .dict []
  let hourkvs := hour_fields.map (fun hk =>
    ("hours." ++ hk,
      match hours with
      | .dict p =>
        (match p.lookup hk with
         | some v => v
         | Option.none => PyVal.int 0)
      | _ => PyVal.int 0))
  simples ++ ppa ++ hourkvs

/-- An openpyxl worksheet: a total cell-value function (1-based row and
column indices; a cell that was never written holds `None`) together
with the `max_row` / `max_column` bounding-box dimensions.  Reading a
cell in openpyxl instantiates it and can extend the bounding box; the
only such read that the program performs beyond the box is the explicit
`ws.cell(row=current_row, column=1)` touch at line 307 and the bounded
row scan of `next_empty_data_row`, neither of which affects any cell
value or any bound later read, so reads are modelled as pure. -/
structure Ws where
  val : Nat → Nat → PyVal
  maxRow : Nat
  maxCol : Nat

/-- Write one cell, extending the bounding box. -/
def setCell (ws : Ws) (r c : Nat) (v : PyVal) : Ws :=
  { val := fun r2 c2 => if r2 = r ∧ c2 = c then v else ws.val r2 c2,
    maxRow := max ws.maxRow r,
    maxCol := max ws.maxCol c }

/-- Instantiate a cell without writing a value (the line 307 touch):
only the bounding box changes. -/
def touchCell (ws : Ws) (r c : Nat) : Ws :=
  { ws with maxRow := max ws.maxRow r, maxCol := max ws.maxCol c }

/-- The membership test `value in (None, "")` used throughout the
source: Python equality against that tuple holds exactly for `None` and
for the empty string. -/
def isEmptyVal : PyVal → Bool
  | .none => true
  | .str s => s = ""
  | _ => false

/-- `str(value)` for a cell value as used when scanning headers.  Cell
values loaded from a workbook are scalars; the composite cases cannot
occur there and are rendered schematically via the JSON dump. -/
def pyStr : PyVal → String
  | .str s => s
  | .int n => toString n
  | .bool b => if b then "True" else "False"
  | .none => "None"
  | .float f => floatRepr f
  | v => jsonDumps v

/-- `TARGET_SHEET` (line 12). -/
def TARGET_SHEET : String := "Estimation"

/-- `HEADER_TO_JSON` (lines 22-40): normalised header text to field key,
in declaration order (Python dicts preserve insertion order). -/
def HEADER_TO_JSON : List (String × String) :=
  [(normS "Platform (Desktop / Web / Mobile)", "platform"),
   (normS "Module", "module"),
   (normS "Component", "component"),
   (normS "Features", "feature"),
   (normS "Make/ Reuse", "make_or_reuse"),
   (normS "Complexity (Simple / Complex / Average)", "complexity"),
   (normS "Project Name", "previous_project_actual.project_name"),
   (normS "Actual (working day)", "previous_project_actual.actual_working_days"),
   (normS "UI Design", "hours.ui_design"),
   (normS "UI Module", "hours.ui_module"),
   (normS "BL", "hours.backend_logic"),
   (normS "General", "hours.general"),
   (normS "Service/ API", "hours.service_api"),
   (normS "DB Struct.", "hours.db_structure"),
   (normS "DB Prog.", "hours.db_programming"),
   (normS "DB - UDF", "hours.db_udf"),
   (normS "# Comp.", "num_components")]

/-- `JSON_NUMERIC_KEYS` (lines 42-46). -/
def JSON_NUMERIC_KEYS : List String :=
  ["hours.ui_design", "hours.ui_module", "hours.backend_logic", "hours.general",
   "hours.service_api", "hours.db_structure", "hours.db_programming", "hours.db_udf",
   "previous_project_actual.actual_working_days", "num_components"]

/-- `scan_header_columns` (lines 146-170): walk rows `1..min(20, max_row
or 1)` and columns `1..min(max_column or 1, 200)` in row-major order,
normalise every non-`None` cell text, and record the first column seen
for each non-empty normalised text. -/
def scan_header_columns (ws : Ws) : List (String × Nat) :=
  let maxCol := min (max ws.maxCol 1) 200
  let maxSearchRow := min 20 (max ws.maxRow 1)
  ((List.range' 1 maxSearchRow).flatMap (fun r =>
    (List.range' 1 maxCol).filterMap (fun c =>
      match ws.val r c with
      | .none => Option.none
      | v =>
        let key := normS (pyStr v)
        if key = "" then Option.none else some (key, c))))
  |>.foldl (fun m kc => if (m.lookup kc.1).isSome then m else m ++ [kc]) []

/-- `locate_columns` (lines 172-180): intersect the scan result with
`HEADER_TO_JSON`, in the dictionary's declaration order. -/
def locate_columns (ws : Ws) : List (String × Nat) :=
  let scan := scan_header_columns ws
  HEADER_TO_JSON.filterMap (fun hj =>
    match scan.lookup hj.1 with
    | some c => some (hj.2, c)
    | Option.none => Option.none)

/-- The normalised texts `find_header_row` requires in one row. -/
def headerTargets : List String :=
  [normS "module", normS "features", normS "platform (desktop / web / mobile)"]

/-- The primary row test of `find_header_row` (lines 186-199): the
normalised texts of the row's cells (first `min(max_column or 1, 50)`
columns) contain all three targets. -/
def headerRowPred (ws : Ws) (r : Nat) : Bool :=
  let maxColToCheck := min (max ws.maxCol 1) 50
  let seen := (List.range' 1 maxColToCheck).filterMap (fun c =>
    match ws.val r c with
    | .none => Option.none
    | v => some (normS (pyStr v)))
  headerTargets.all (fun t => seen.contains t)

/-- The fallback row test of `find_header_row` (lines 201-208): some
cell among the first `min(max_column or 1, 20)` columns is non-empty. -/
def fallbackRowPred (ws : Ws) (r : Nat) : Bool :=
  (List.range' 1 (min (max ws.maxCol 1) 20)).any (fun c => !isEmptyVal (ws.val r c))

/-- `find_header_row` (lines 182-210): first row among `1..min(30,
max_row or 1)` satisfying the primary test; otherwise the first row
among `1..min(10, max_row + 1) - 1` satisfying the fallback test;
otherwise 1. -/
def find_header_row (ws : Ws) : Nat :=
  match (List.range' 1 (min 30 (max ws.maxRow 1))).find? (headerRowPred ws) with
  | some r => r
  | Option.none =>
    match (List.range' 1 (min 10 (ws.maxRow + 1) - 1)).find? (fallbackRowPred ws) with
    | some r => r
    | Option.none => 1

/-- `next_empty_data_row` (lines 212-231): first row from `header_row +
1` up to `min(max_row + 100, header_row + 1 + 5000) - 1` in which every
data column (ignoring columns beyond 1000) is empty; if none,
`max_row + 1`. -/
def next_empty_data_row (ws : Ws) (dataCols : List Nat) (headerRow : Nat) : Nat :=
  let start := headerRow + 1
  let stop := min (ws.maxRow + 100) (start + 5000)
  match (List.range' start (stop - start)).find? (fun r =>
      dataCols.all (fun c => if 1000 < c then true else isEmptyVal (ws.val r c))) with
  | some r => r
  | Option.none => ws.maxRow + 1

/-- `get_last_filled_data_row` (lines 233-252): last row in
`header_row + 1 .. min(max_row + 1, header_row + 5000) - 1` in which
some data column (ignoring columns beyond 1000) is non-empty;
`header_row` if none. -/
def get_last_filled_data_row (ws : Ws) (dataCols : List Nat) (headerRow : Nat) : Nat :=
  let stop := min (ws.maxRow + 1) (headerRow + 5000)
  (List.range' (headerRow + 1) (stop - (headerRow + 1))).foldl
    (fun last r =>
      if dataCols.any (fun c => if 1000 < c then false else !isEmptyVal (ws.val r c))
      then r else last)
    headerRow

/-- The source-cell test of `copy_formulas` (lines 264-266): a value
that is not `None`, is a string, and starts with `=`
(`startswith("=")` holds exactly when the first character is `=`). -/
def isFormulaStr : PyVal → Bool
  | .str t =>
    match t.toList with
    | c :: _ => c = '='
    | [] => false
  | _ => false

/-- One column step of `copy_formulas`: copy the source cell into the
destination cell when the destination is empty and the source holds a
string beginning with `=`. -/
def copyFormulaCell (src dst : Nat) (ws : Ws) (c : Nat) : Ws :=
  if isEmptyVal (ws.val dst c) ∧ isFormulaStr (ws.val src c)
  then setCell ws dst c (ws.val src c) else ws

/-- `copy_formulas` (lines 254-274): for every column `1 ..
min(max_column + 1, 100) - 1`, copy a formula string down from the
source row into an empty destination cell. -/
def copy_formulas (ws : Ws) (src dst : Nat) : Ws :=
  (List.range' 1 (min (ws.maxCol + 1) 100 - 1)).foldl (copyFormulaCell src dst) ws

/-- `owned_keys` (lines 284-290). -/
def owned_keys : List String :=
  ["platform", "module", "component", "feature", "make_or_reuse", "complexity",
   "previous_project_actual.project_name", "previous_project_actual.actual_working_days",
   "hours.ui_design", "hours.ui_module", "hours.backend_logic", "hours.general",
   "hours.service_api", "hours.db_structure", "hours.db_programming", "hours.db_udf",
   "num_components"]

/-- `data_cols` (line 292): the mapped columns of the owned keys, in
`owned_keys` order. -/
def dataColsOf (colMap : List (String × Nat)) : List Nat :=
  owned_keys.filterMap (fun k => colMap.lookup k)

/-- The value the writer stores for field key `k` holding flattened
value `v` (lines 320-325) when the numeric coercion does not raise:
numeric keys are first coerced through `safe_numeric_convert` when that
succeeds, then everything is sanitised. -/
def writtenCellValue (k : String) (v : PyVal) : PyVal :=
  safe_excel_value
    (if JSON_NUMERIC_KEYS.contains k then
      match safe_numeric_convert v with
      | .ok (some f) => .float f
      | _ => v
     else v)

/-- `True` when the numeric coercion of value `v` under field key `k`
raises (`float(int)` OverflowError at line 103 reached through line
321). -/
def convertRaises (k : String) (v : PyVal) : Bool :=
  JSON_NUMERIC_KEYS.contains k &&
    (match safe_numeric_convert v with | .error _ => true | .ok _ => false)

/-- `True` when no key of the column map triggers a raising numeric
coercion on the given flattened row: exactly the condition under which
the cell loop of lines 312-334 completes without an exception. -/
def flatConvertOk (flat : List (String × PyVal)) (colMap : List (String × Nat)) : Bool :=
  colMap.all (fun kc => !convertRaises kc.1 (pyGet flat kc.1))

/-- The `value is None` test of line 317. -/
def isNoneVal : PyVal → Bool
  | .none => true
  | _ => false

/-- One cell of the per-row loop of `write_rows_to_estimation` (lines
312-334): skip columns beyond 1000 and absent / `None` values, coerce
and sanitise, and store.  A raising numeric coercion aborts the row
(`Except.error` carries the cells written so far); the per-cell
`try/except` retry at lines 329-334 cannot fire in the model. -/
def writeCellStep (r : Nat) (flat : List (String × PyVal)) (w : Ws) (kc : String × Nat) :
    Except Ws Ws :=
  if 1000 < kc.2 then .ok w
  else if isNoneVal (pyGet flat kc.1) then .ok w
  else if convertRaises kc.1 (pyGet flat kc.1) then .error w
  else .ok (setCell w r kc.2 (writtenCellValue kc.1 (pyGet flat kc.1)))

/-- The loop over the column map for one row: stops at the first
raising coercion, keeping the cells already written. -/
def writeRowVals (r : Nat) : List (String × Nat) → List (String × PyVal) → Ws →
    Except Ws Ws
  | [], _, ws => .ok ws
  | kc :: rest, flat, ws =>
    match writeCellStep r flat ws kc with
    | .ok w2 => writeRowVals r rest flat w2
    | .error w2 => .error w2

/-- The worksheet state an `Except`-outcome of the cell loop leaves
behind (identical for success and for a mid-row abort). -/
def exOut : Except Ws Ws → Ws
  | .ok w => w
  | .error w => w

/-- The body of the `for i, row in enumerate(rows)` loop (lines
302-340).  A row that is not a dict makes `flatten_row` raise at line
304; an `OverflowError` escapes the cell loop mid-row; either way the
per-row `except` at line 338 skips the rest of the row WITHOUT
incrementing `current_row`, keeping any cells already written. -/
def processRows (headerRow lastFilled : Nat) (colMap : List (String × Nat)) :
    Ws → Nat → List PyVal → Ws
  | ws, _, [] => ws
  | ws, cur, row :: rest =>
    match row with
    | .dict kvs =>
      let flat := flatten_row kvs
      let ws1 := if ws.maxRow < cur then touchCell ws cur 1 else ws
      let ws2 := if lastFilled < cur ∧ headerRow < lastFilled
                 then copy_formulas ws1 lastFilled cur else ws1
      match writeRowVals cur colMap flat ws2 with
      | .ok ws3 => processRows headerRow lastFilled colMap ws3 (cur + 1) rest
      | .error ws3 => processRows headerRow lastFilled colMap ws3 cur rest
    | _ => processRows headerRow lastFilled colMap ws cur rest

/-- Python `repr` of a string, simplified to plain single quotes (the
claims only involve names without quotes or control characters). -/
def pyReprStr (s : String) : String := "\x27" ++ s ++ "\x27"

/-- Comma-separated concatenation, as Python renders list elements. -/
def commaSep : List String → String
  | [] => ""
  | [x] => x
  | x :: xs => x ++ ", " ++ commaSep xs

/-- Python `repr` of a list of strings, as an f-string renders
`list(col_map.keys())` or `wb.sheetnames`. -/
def pyReprStrList (l : List String) : String :=
  "[" ++ commaSep (l.map pyReprStr) ++ "]"

/-- `write_rows_to_estimation` (lines 276-343).  An empty batch returns
at once; an empty column map raises, and the outer `except` at line 342
wraps the message.  On success the mutated worksheet is returned. -/
def write_rows_to_estimation (ws : Ws) (rows : List PyVal) : Except String Ws :=
  if rows.isEmpty then .ok ws
  else
    let headerRow := find_header_row ws
    let colMap := locate_columns ws
    let dataCols := dataColsOf colMap
    if dataCols.isEmpty then
      .error ("Error writing rows to worksheet: Could not locate required columns in \x27Estimation\x27. Found columns: "
        ++ pyReprStrList (colMap.map Prod.fst))
    else
      let startRow := next_empty_data_row ws dataCols headerRow
      let lastFilled := get_last_filled_data_row ws dataCols headerRow
      .ok (processRows headerRow lastFilled colMap ws startRow rows)

/-- A loaded workbook: named sheets in order. -/
structure Workbook where
  sheets : List (String × Ws)

/-- The check `isinstance(data, dict) and "rows" in data` (line 370). -/
def hasRowsKey : PyVal → Bool
  | .dict kvs => kvs.any (fun kv => kv.1 = "rows")
  | _ => false

/-- The check `isinstance(data["rows"], list)` (line 373). -/
def rowsIsList : PyVal → Bool
  | .dict kvs =>
    match kvs.lookup "rows" with
    | some (.list _) => true
    | _ => false
  | _ => false

/-- The rows of a payload that passed both checks. -/
def payloadRows : PyVal → List PyVal
  | .dict kvs =>
    match kvs.lookup "rows" with
    | some (.list xs) => xs
    | _ => []
  | _ => []

/-- The fatal message of line 385, including the f-string rendering of
`wb.sheetnames`. -/
def sheetNotFoundMsg (names : List String) : String :=
  "Sheet \x27Estimation\x27 not found. Available sheets: " ++ pyReprStrList names

/-- Replace the target sheet's worksheet. -/
def setSheet (wb : Workbook) (ws : Ws) : Workbook :=
  ⟨wb.sheets.map (fun nv => if nv.1 = TARGET_SHEET then (nv.1, ws) else nv)⟩

/-- `main` (lines 345-402) after JSON parsing and workbook loading,
which are abstracted into the two parameters: the `rows`-key check, the
array check, the sheet-presence check, the write, and the save.  An
`Except.error` is a fatal abort with no output file created; `Except.ok`
is the saved output workbook. -/
def mainModel (data : PyVal) (wb : Workbook) : Except String Workbook :=
  if ¬ hasRowsKey data then .error "JSON must contain a \x27rows\x27 key"
  else if ¬ rowsIsList data then .error "JSON \x27rows\x27 must be an array"
  else if ¬ wb.sheets.any (fun nv => nv.1 = TARGET_SHEET) then
    .error (sheetNotFoundMsg (wb.sheets.map Prod.fst))
  else
    match wb.sheets.find? (fun nv => nv.1 = TARGET_SHEET) with
    | Option.none => .error (sheetNotFoundMsg (wb.sheets.map Prod.fst))
    | some nv =>
      match write_rows_to_estimation nv.2 (payloadRows data) with
      | .error e => .error ("Error writing data to worksheet: " ++ e)
      | .ok ws2 => .ok (setSheet wb ws2)

/-! ### Generic list helpers -/

lemma lookup_mem {α : Type} {β : Type} [BEq α] [LawfulBEq α]
    {l : List (α × β)} {k : α} {v : β}
    (h : l.lookup k = some v) : (k, v) ∈ l := by
  induction l with
  | nil => simp at h
  | cons kv rest ih =>
    rcases kv with ⟨k0, v0⟩
    rw [List.lookup_cons] at h
    rcases hk : (k == k0) with _ | _
    · rw [hk] at h
      exact List.mem_cons_of_mem _ (ih h)
    · rw [hk] at h
      have hkk : k = k0 := by simpa using hk
      have hvv : v0 = v := by simpa using h
      subst hkk; subst hvv
      exact List.mem_cons_self _ _

lemma filter_replicate_of_neg {p : Char → Bool} {c : Char} (h : p c = false) (n : Nat) :
    (List.replicate n c).filter p = [] := by
  induction n with
  | zero => rfl
  | succ n ih => rw [List.replicate_succ, List.filter_cons_of_neg (by simp [h]), ih]

/-! ### Cell-level lemmas for the worksheet model -/

lemma setCell_val_self (ws : Ws) (r c : Nat) (v : PyVal) :
    (setCell ws r c v).val r c = v := by
  simp [setCell]

lemma setCell_val_of_ne (ws : Ws) {r c r2 c2 : Nat} (v : PyVal)
    (h : ¬ (r2 = r ∧ c2 = c)) : (setCell ws r c v).val r2 c2 = ws.val r2 c2 := by
  simp only [setCell]
  rw [if_neg h]

lemma touchCell_val (ws : Ws) (r c r2 c2 : Nat) :
    (touchCell ws r c).val r2 c2 = ws.val r2 c2 := rfl

/-! ### Lemmas about the formula copy-down -/

lemma copyFormulaCell_val_untouched {src dst : Nat} {w : Ws} {c r2 c2 : Nat}
    (h : ¬ (r2 = dst ∧ c2 = c)) :
    (copyFormulaCell src dst w c).val r2 c2 = w.val r2 c2 := by
  unfold copyFormulaCell
  split
  · exact setCell_val_of_ne _ _ h
  · rfl

lemma copyFold_val_untouched {src dst : Nat} {cols : List Nat} {w : Ws} {r2 c2 : Nat}
    (h : r2 ≠ dst ∨ c2 ∉ cols) :
    (cols.foldl (copyFormulaCell src dst) w).val r2 c2 = w.val r2 c2 := by
  induction cols generalizing w with
  | nil => rfl
  | cons c0 rest ih =>
    rw [List.foldl_cons]
    have h2 : r2 ≠ dst ∨ c2 ∉ rest := by
      rcases h with h | h
      · exact Or.inl h
      · exact Or.inr (fun hm => h (List.mem_cons_of_mem _ hm))
    have h3 : ¬ (r2 = dst ∧ c2 = c0) := by
      rcases h with h | h
      · exact fun hc => h hc.1
      · exact fun hc => h (hc.2 ▸ List.mem_cons_self _ _)
    rw [ih h2, copyFormulaCell_val_untouched h3]

lemma copyFold_val_nonempty_frame {src dst : Nat} {cols : List Nat} {w : Ws} {c2 : Nat}
    (h : isEmptyVal (w.val dst c2) = false) :
    (cols.foldl (copyFormulaCell src dst) w).val dst c2 = w.val dst c2 := by
  induction cols generalizing w with
  | nil => rfl
  | cons c0 rest ih =>
    rw [List.foldl_cons]
    by_cases hc : c2 = c0
    · subst hc
      have hstep : copyFormulaCell src dst w c2 = w := by
        unfold copyFormulaCell
        rw [if_neg]
        intro hcond
        rw [h] at hcond
        exact Bool.noConfusion hcond.1
      rw [hstep, ih h]
    · have hstep : (copyFormulaCell src dst w c0).val dst c2 = w.val dst c2 :=
        copyFormulaCell_val_untouched (fun hc2 => hc (hc2.2))
      rw [ih (hstep ▸ h), hstep]

lemma copyFold_copies {src dst : Nat} {cols : List Nat} {w : Ws} {c : Nat}
    (hsd : src ≠ dst) (hnd : cols.Nodup) (hmem : c ∈ cols)
    (hempty : isEmptyVal (w.val dst c) = true)
    (hform : isFormulaStr (w.val src c) = true) :
    (cols.foldl (copyFormulaCell src dst) w).val dst c = w.val src c := by
  induction cols generalizing w with
  | nil => cases hmem
  | cons c0 rest ih =>
    rw [List.foldl_cons]
    rcases List.mem_cons.mp hmem with hc | hc
    · subst hc
      have hnotin : c ∉ rest := (List.nodup_cons.mp hnd).1
      have hstep : copyFormulaCell src dst w c = setCell w dst c (w.val src c) := by
        unfold copyFormulaCell
        rw [if_pos ⟨hempty, hform⟩]
      rw [hstep, copyFold_val_untouched (Or.inr hnotin), setCell_val_self]
    · have hne : c0 ≠ c := by
        intro hcc
        exact (List.nodup_cons.mp hnd).1 (hcc ▸ hc)
      have hdst : (copyFormulaCell src dst w c0).val dst c = w.val dst c :=
        copyFormulaCell_val_untouched (fun hk => hne hk.2.symm)
      have hsrc : (copyFormulaCell src dst w c0).val src c = w.val src c :=
        copyFormulaCell_val_untouched (fun hk => hsd hk.1)
      rw [ih (List.nodup_cons.mp hnd).2 hc (hdst ▸ hempty) (hsrc ▸ hform), hsrc]

lemma copy_formulas_val_untouched {ws : Ws} {src dst r2 c2 : Nat}
    (h : r2 ≠ dst) : (copy_formulas ws src dst).val r2 c2 = ws.val r2 c2 :=
  copyFold_val_untouched (Or.inl h)

lemma copy_formulas_nonempty_frame {ws : Ws} {src dst c2 : Nat}
    (h : isEmptyVal (ws.val dst c2) = false) :
    (copy_formulas ws src dst).val dst c2 = ws.val dst c2 :=
  copyFold_val_nonempty_frame h

lemma copy_formulas_copies {ws : Ws} {src dst c : Nat}
    (hsd : src ≠ dst) (hc1 : 1 ≤ c) (hc2 : c < min (ws.maxCol + 1) 100)
    (hempty : isEmptyVal (ws.val dst c) = true)
    (hform : isFormulaStr (ws.val src c) = true) :
    (copy_formulas ws src dst).val dst c = ws.val src c := by
  apply copyFold_copies hsd (List.nodup_range' _ _) _ hempty hform
  rw [List.mem_range'_1]
  omega

/-! ### Lemmas about the per-row value writes -/

lemma ne_none_of_not_isNoneVal {v : PyVal} (h : isNoneVal v = false) : v ≠ .none := by
  intro hh
  rw [hh] at h
  exact Bool.noConfusion h

lemma isNoneVal_false_of_ne {v : PyVal} (h : v ≠ .none) : isNoneVal v = false := by
  cases v with
  | none => exact absurd rfl h
  | bool b => rfl
  | int n => rfl
  | float f => rfl
  | str s => rfl
  | list xs => rfl
  | dict kvs => rfl

lemma writeCellStep_ok_val {r : Nat} {flat : List (String × PyVal)} {w w2 : Ws}
    {kc : String × Nat} {r2 c2 : Nat}
    (hstep : writeCellStep r flat w kc = .ok w2) (h : ¬ (r2 = r ∧ c2 = kc.2)) :
    w2.val r2 c2 = w.val r2 c2 := by
  unfold writeCellStep at hstep
  split at hstep
  · cases hstep
    rfl
  · split at hstep
    · cases hstep
      rfl
    · split at hstep
      · exact Except.noConfusion hstep
      · cases hstep
        exact setCell_val_of_ne _ _ h

lemma writeCellStep_error_eq {r : Nat} {flat : List (String × PyVal)} {w w2 : Ws}
    {kc : String × Nat} (hstep : writeCellStep r flat w kc = .error w2) : w2 = w := by
  unfold writeCellStep at hstep
  split at hstep
  · exact Except.noConfusion hstep
  · split at hstep
    · exact Except.noConfusion hstep
    · split at hstep
      · cases hstep
        rfl
      · exact Except.noConfusion hstep

lemma writeCellStep_of_skip {r : Nat} {flat : List (String × PyVal)} {w : Ws}
    {kc : String × Nat} (h : pyGet flat kc.1 = .none) :
    writeCellStep r flat w kc = .ok w := by
  unfold writeCellStep
  rw [h]
  split
  · rfl
  · rfl

lemma writeCellStep_of_write {r : Nat} {flat : List (String × PyVal)} {w : Ws}
    {k : String} {c : Nat} {v : PyVal} (hc : ¬ 1000 < c)
    (hv : pyGet flat k = v) (hvn : isNoneVal v = false)
    (hnr : convertRaises k v = false) :
    writeCellStep r flat w (k, c) = .ok (setCell w r c (writtenCellValue k v)) := by
  unfold writeCellStep
  dsimp only
  rw [hv, if_neg hc, if_neg (by rw [hvn]; exact Bool.false_ne_true),
    if_neg (by rw [hnr]; exact Bool.false_ne_true)]

lemma writeCellStep_isOk {r : Nat} {flat : List (String × PyVal)} {w : Ws}
    {kc : String × Nat} (h : convertRaises kc.1 (pyGet flat kc.1) = false) :
    ∃ w2, writeCellStep r flat w kc = .ok w2 := by
  unfold writeCellStep
  split
  · exact ⟨w, rfl⟩
  · split
    · exact ⟨w, rfl⟩
    · split
      · next hcr =>
        rw [h] at hcr
        exact absurd hcr (by intro hh; cases hh)
      · exact ⟨_, rfl⟩

lemma writeRowVals_cons (r : Nat) (kc : String × Nat) (rest : List (String × Nat))
    (flat : List (String × PyVal)) (w : Ws) :
    writeRowVals r (kc :: rest) flat w
      = match writeCellStep r flat w kc with
        | .ok w2 => writeRowVals r rest flat w2
        | .error w2 => .error w2 := rfl

lemma writeRowVals_val_untouched {r : Nat} {colMap : List (String × Nat)}
    {flat : List (String × PyVal)} {w : Ws} {r2 c2 : Nat}
    (h : r2 ≠ r ∨ c2 ∉ colMap.map Prod.snd) :
    (exOut (writeRowVals r colMap flat w)).val r2 c2 = w.val r2 c2 := by
  induction colMap generalizing w with
  | nil => rfl
  | cons kc rest ih =>
    have h2 : r2 ≠ r ∨ c2 ∉ rest.map Prod.snd := by
      rcases h with h | h
      · exact Or.inl h
      · exact Or.inr (fun hm => h (by simp only [List.map_cons]; exact List.mem_cons_of_mem _ hm))
    have h3 : ¬ (r2 = r ∧ c2 = kc.2) := by
      rcases h with h | h
      · exact fun hcc => h hcc.1
      · exact fun hcc => h (by simp only [List.map_cons]; exact hcc.2 ▸ List.mem_cons_self _ _)
    rw [writeRowVals_cons]
    cases hstep : writeCellStep r flat w kc with
    | ok w2 =>
      show (exOut (writeRowVals r rest flat w2)).val r2 c2 = w.val r2 c2
      rw [ih h2, writeCellStep_ok_val hstep h3]
    | error w2 =>
      have he := writeCellStep_error_eq hstep
      subst he
      rfl

lemma writeRowVals_out_val_untouched {r : Nat} {colMap : List (String × Nat)}
    {flat : List (String × PyVal)} {P w3 : Ws} {r2 c2 : Nat}
    (h : r2 ≠ r ∨ c2 ∉ colMap.map Prod.snd)
    (hW : writeRowVals r colMap flat P = .ok w3 ∨ writeRowVals r colMap flat P = .error w3) :
    w3.val r2 c2 = P.val r2 c2 := by
  have h2 : (exOut (writeRowVals r colMap flat P)).val r2 c2 = P.val r2 c2 :=
    writeRowVals_val_untouched h
  rcases hW with hW | hW
  · rw [hW] at h2
    exact h2
  · rw [hW] at h2
    exact h2

lemma bnot_true {b : Bool} (h : (!b) = true) : b = false := by
  cases b
  · rfl
  · cases h

lemma writeRowVals_isOk {r : Nat} {flat : List (String × PyVal)}
    {colMap : List (String × Nat)} {w : Ws} (h : flatConvertOk flat colMap = true) :
    ∃ w2, writeRowVals r colMap flat w = .ok w2 := by
  induction colMap generalizing w with
  | nil => exact ⟨w, rfl⟩
  | cons kc rest ih =>
    rw [flatConvertOk, List.all_cons, Bool.and_eq_true] at h
    rcases writeCellStep_isOk (r := r) (w := w) (bnot_true h.1) with ⟨w2, hstep⟩
    rw [writeRowVals_cons, hstep]
    exact ih h.2

lemma writeRowVals_val_write {r : Nat} {colMap : List (String × Nat)}
    {flat : List (String × PyVal)} {w : Ws} {k : String} {c : Nat} {v : PyVal}
    (hnd : (colMap.map Prod.snd).Nodup) (hmem : (k, c) ∈ colMap) (hc : ¬ 1000 < c)
    (hv : pyGet flat k = v) (hvn : isNoneVal v = false)
    (hok : flatConvertOk flat colMap = true) :
    (exOut (writeRowVals r colMap flat w)).val r c = writtenCellValue k v := by
  induction colMap generalizing w with
  | nil => cases hmem
  | cons kc rest ih =>
    rw [List.map_cons, List.nodup_cons] at hnd
    rw [flatConvertOk, List.all_cons, Bool.and_eq_true] at hok
    rw [writeRowVals_cons]
    rcases List.mem_cons.mp hmem with hkc | hkc
    · subst hkc
      have hnr : convertRaises k v = false := by
        have hq := bnot_true hok.1
        rw [show pyGet flat (k, c).1 = v from hv] at hq
        exact hq
      rw [writeCellStep_of_write hc hv hvn hnr]
      show (exOut (writeRowVals r rest flat
        (setCell w r c (writtenCellValue k v)))).val r c = writtenCellValue k v
      rw [writeRowVals_val_untouched (Or.inr hnd.1), setCell_val_self]
    · rcases writeCellStep_isOk (r := r) (w := w) (bnot_true hok.1)
        with ⟨w2, hstep⟩
      rw [hstep]
      show (exOut (writeRowVals r rest flat w2)).val r c = writtenCellValue k v
      exact ih hnd.2 hkc hok.2

lemma writeRowVals_val_skip {r : Nat} {colMap : List (String × Nat)}
    {flat : List (String × PyVal)} {w : Ws} {k : String} {c : Nat}
    (hnd : (colMap.map Prod.snd).Nodup) (hmem : (k, c) ∈ colMap)
    (hv : pyGet flat k = .none) :
    (exOut (writeRowVals r colMap flat w)).val r c = w.val r c := by
  induction colMap generalizing w with
  | nil => cases hmem
  | cons kc rest ih =>
    rw [List.map_cons, List.nodup_cons] at hnd
    rw [writeRowVals_cons]
    rcases List.mem_cons.mp hmem with hkc | hkc
    · subst hkc
      rw [writeCellStep_of_skip (show pyGet flat (k, c).1 = .none from hv)]
      show (exOut (writeRowVals r rest flat w)).val r c = w.val r c
      exact writeRowVals_val_untouched (Or.inr hnd.1)
    · have hcne : kc.2 ≠ c := fun he => hnd.1 (he ▸ List.mem_map.mpr ⟨(k, c), hkc, rfl⟩)
      cases hstep : writeCellStep r flat w kc with
      | ok w2 =>
        show (exOut (writeRowVals r rest flat w2)).val r c = w.val r c
        rw [ih hnd.2 hkc, writeCellStep_ok_val hstep (fun hh => hcne hh.2.symm)]
      | error w2 =>
        have he := writeCellStep_error_eq hstep
        subst he
        rfl

/-! ### Frame lemmas for the row loop -/

lemma processRows_cons_dict (headerRow lastFilled : Nat) (colMap : List (String × Nat))
    (ws : Ws) (cur : Nat) (kvs : List (String × PyVal)) (rest : List PyVal) :
    processRows headerRow lastFilled colMap ws cur (.dict kvs :: rest)
      = match writeRowVals cur colMap (flatten_row kvs)
            (if (lastFilled < cur ∧ headerRow < lastFilled : Prop)
             then copy_formulas (if ws.maxRow < cur then touchCell ws cur 1 else ws)
               lastFilled cur
             else (if ws.maxRow < cur then touchCell ws cur 1 else ws)) with
        | .ok w => processRows headerRow lastFilled colMap w (cur + 1) rest
        | .error w => processRows headerRow lastFilled colMap w cur rest := rfl

lemma processRows_singleton_dict (headerRow lastFilled : Nat) (colMap : List (String × Nat))
    (ws : Ws) (cur : Nat) (kvs : List (String × PyVal)) :
    processRows headerRow lastFilled colMap ws cur [.dict kvs]
      = exOut (writeRowVals cur colMap (flatten_row kvs)
          (if (lastFilled < cur ∧ headerRow < lastFilled : Prop)
           then copy_formulas (if ws.maxRow < cur then touchCell ws cur 1 else ws)
             lastFilled cur
           else (if ws.maxRow < cur then touchCell ws cur 1 else ws))) := by
  rw [processRows_cons_dict]
  cases writeRowVals cur colMap (flatten_row kvs)
      (if (lastFilled < cur ∧ headerRow < lastFilled : Prop)
       then copy_formulas (if ws.maxRow < cur then touchCell ws cur 1 else ws)
         lastFilled cur
       else (if ws.maxRow < cur then touchCell ws cur 1 else ws)) with
  | ok w2 => rfl
  | error w2 => rfl

lemma processRows_cons_dict_ok {headerRow lastFilled : Nat} {colMap : List (String × Nat)}
    {ws : Ws} {cur : Nat} {kvs : List (String × PyVal)} {rest : List PyVal}
    (h : flatConvertOk (flatten_row kvs) colMap = true) :
    processRows headerRow lastFilled colMap ws cur (.dict kvs :: rest)
      = processRows headerRow lastFilled colMap
          (exOut (writeRowVals cur colMap (flatten_row kvs)
            (if (lastFilled < cur ∧ headerRow < lastFilled : Prop)
             then copy_formulas (if ws.maxRow < cur then touchCell ws cur 1 else ws)
               lastFilled cur
             else (if ws.maxRow < cur then touchCell ws cur 1 else ws))))
          (cur + 1) rest := by
  rw [processRows_cons_dict]
  rcases writeRowVals_isOk (r := cur)
      (w := (if (lastFilled < cur ∧ headerRow < lastFilled : Prop)
             then copy_formulas (if ws.maxRow < cur then touchCell ws cur 1 else ws)
               lastFilled cur
             else (if ws.maxRow < cur then touchCell ws cur 1 else ws))) h
    with ⟨w2, hW⟩
  rw [hW]
  rfl

lemma processRows_frame {headerRow lastFilled : Nat} {colMap : List (String × Nat)}
    {rows : List PyVal} {ws : Ws} {cur r2 c2 : Nat} (h : r2 < cur) :
    (processRows headerRow lastFilled colMap ws cur rows).val r2 c2 = ws.val r2 c2 := by
  induction rows generalizing ws cur with
  | nil => rfl
  | cons row rest ih =>
    cases row with
    | dict kvs =>
      have hne : r2 ≠ cur := Nat.ne_of_lt h
      have htv : (if ws.maxRow < cur then touchCell ws cur 1 else ws).val r2 c2
          = ws.val r2 c2 := by
        split
        · rfl
        · rfl
      have h1 : (if (lastFilled < cur ∧ headerRow < lastFilled : Prop)
           then copy_formulas (if ws.maxRow < cur then touchCell ws cur 1 else ws)
             lastFilled cur
           else (if ws.maxRow < cur then touchCell ws cur 1 else ws)).val r2 c2
          = ws.val r2 c2 := by
        split
        · rw [copy_formulas_val_untouched hne]
          exact htv
        · exact htv
      rw [processRows_cons_dict]
      cases hW : writeRowVals cur colMap (flatten_row kvs)
          (if (lastFilled < cur ∧ headerRow < lastFilled : Prop)
           then copy_formulas (if ws.maxRow < cur then touchCell ws cur 1 else ws)
             lastFilled cur
           else (if ws.maxRow < cur then touchCell ws cur 1 else ws)) with
      | ok w3 =>
        show (processRows headerRow lastFilled colMap w3 (cur + 1) rest).val r2 c2
          = ws.val r2 c2
        rw [ih (Nat.lt_succ_of_lt h)]
        rw [writeRowVals_out_val_untouched (Or.inl hne) (Or.inl hW)]
        exact h1
      | error w3 =>
        show (processRows headerRow lastFilled colMap w3 cur rest).val r2 c2
          = ws.val r2 c2
        rw [ih h]
        rw [writeRowVals_out_val_untouched (Or.inl hne) (Or.inr hW)]
        exact h1
    | none => exact ih h
    | bool b => exact ih h
    | int n => exact ih h
    | float f => exact ih h
    | str s => exact ih h
    | list xs => exact ih h

/-! ### Small facts about the sanitiser and the numeric conversion -/

lemma safe_excel_value_int (n : Int) : safe_excel_value (.int n) = .int n := rfl

lemma safe_excel_value_str (s : String) :
    safe_excel_value (.str s) = .str (sanitizeStr s) := rfl

lemma safe_excel_value_nonfinite {f : PyFloat} (h : f.isFinite = false) :
    safe_excel_value (.float f) = .none := by
  cases f with
  | nan => rfl
  | inf => rfl
  | neginf => rfl
  | finite m e => simp [PyFloat.isFinite] at h

lemma safe_numeric_convert_int (n : Int) :
    safe_numeric_convert (.int n)
      = match pyFloatOfInt n with
        | some f => .ok (some f)
        | Option.none => .error "int too large to convert to float" := rfl

lemma safe_numeric_convert_str (s : String) :
    safe_numeric_convert (.str s)
      = if s = "" then .ok Option.none
        else if stripChars s.toList = [] then .ok Option.none
        else .ok (match parsePyFloat (stripChars s.toList) with
          | some (.finite m e) => some (.finite m e)
          | some _ => Option.none
          | Option.none => Option.none) := rfl

lemma pyFloatOfInt_finite {n : Int} {f : PyFloat} (h : pyFloatOfInt n = some f) :
    f.isFinite = true := by
  unfold pyFloatOfInt at h
  split at h
  · have h2 := Option.some.inj h
    rw [← h2]
    rfl
  · split at h
    · exact Option.noConfusion h
    · next m e heq =>
      have h2 := Option.some.inj h
      rw [← h2]
      split
      · rfl
      · rfl
    all_goals exact Option.noConfusion h

lemma safe_numeric_convert_finite {v : PyVal} {f : PyFloat}
    (h : safe_numeric_convert v = .ok (some f)) : f.isFinite = true := by
  cases v with
  | none => exact Option.noConfusion (Except.ok.inj h)
  | bool b =>
    have h2 := Option.some.inj (Except.ok.inj h)
    rw [← h2]
    rfl
  | int n =>
    rw [safe_numeric_convert_int] at h
    split at h
    · next g hg =>
      have h2 := Option.some.inj (Except.ok.inj h)
      rw [← h2]
      exact pyFloatOfInt_finite hg
    · exact Except.noConfusion h
  | float g =>
    cases g with
    | nan => exact Option.noConfusion (Except.ok.inj h)
    | inf => exact Option.noConfusion (Except.ok.inj h)
    | neginf => exact Option.noConfusion (Except.ok.inj h)
    | finite m e =>
      have h2 := Option.some.inj (Except.ok.inj h)
      rw [← h2]
      rfl
  | str s =>
    rw [safe_numeric_convert_str] at h
    split at h
    · exact Option.noConfusion (Except.ok.inj h)
    · split at h
      · exact Option.noConfusion (Except.ok.inj h)
      · have h2 := Except.ok.inj h
        split at h2
        · next m e heq =>
          have h3 := Option.some.inj h2
          rw [← h3]
          rfl
        all_goals exact Option.noConfusion h2
  | list xs => exact Option.noConfusion (Except.ok.inj h)
  | dict kvs => exact Option.noConfusion (Except.ok.inj h)

/-! ### Claim C9 -/

/-- Claim C9: calling `writeRows` with an empty rows list returns
immediately without raising and leaves every cell of the worksheet
unchanged, even when the template contains zero recognized columns: the
result is `ok` with the very same worksheet, for every worksheet, so the
empty-column-map fatal error can only ever be raised for a non-empty
batch. -/
theorem c9_empty_batch (ws : Ws) : write_rows_to_estimation ws [] = .ok ws := rfl

/-! ### Claim C4 -/

/-- Claim C4 counterexample: the int `10 ^ 400` has magnitude outside
the double range, yet `safe_excel_value` returns it unchanged rather
than converting it to its string representation — the out-of-range
check at source line 56 sits inside the `isinstance(value, float)`
branch and is never applied to ints. -/
theorem c4_counterexample :
    inDoubleRange ((10 : Int) ^ 400) 0 = false ∧
    safe_excel_value (.int ((10 : Int) ^ 400)) = .int ((10 : Int) ^ 400) ∧
    safe_excel_value (.int ((10 : Int) ^ 400)) ≠ .str (toString ((10 : Int) ^ 400)) := by
  refine ⟨by decide, rfl, ?_⟩
  intro h
  rw [safe_excel_value_int] at h
  exact PyVal.noConfusion h

/-- Claim C4 (amended): for numeric input, ints pass through unchanged
regardless of magnitude; NaN and the infinities give null; finite
floats within the double range pass through unchanged; and only a
finite float outside the double range (impossible for an actual IEEE
double) is converted to its string representation. -/
theorem c4_numeric_amended :
    (∀ n : Int, safe_excel_value (.int n) = .int n) ∧
    (∀ f : PyFloat, f.isFinite = false → safe_excel_value (.float f) = .none) ∧
    (∀ m : Int, ∀ e : Nat, inDoubleRange m e = true →
      safe_excel_value (.float (.finite m e)) = .float (.finite m e)) ∧
    (∀ m : Int, ∀ e : Nat, inDoubleRange m e = false →
      safe_excel_value (.float (.finite m e)) = .str (floatRepr (.finite m e))) := by
  refine ⟨fun n => rfl, fun f hf => safe_excel_value_nonfinite hf,
    fun m e h => ?_, fun m e h => ?_⟩
  · show (if inDoubleRange m e then PyVal.float (.finite m e)
      else PyVal.str (floatRepr (.finite m e))) = _
    rw [if_pos h]
  · show (if inDoubleRange m e then PyVal.float (.finite m e)
      else PyVal.str (floatRepr (.finite m e))) = _
    rw [if_neg (by simp [h])]

/-- Witness for claim C4 at concrete inputs. -/
theorem c4_numeric_amended_witness :
    safe_excel_value (.float .inf) = .none ∧
    safe_excel_value (.float (.finite 5 0)) = .float (.finite 5 0) ∧
    safe_excel_value (.float (.finite ((10 : Int) ^ 400) 0))
      = .str (floatRepr (.finite ((10 : Int) ^ 400) 0)) :=
  ⟨c4_numeric_amended.2.1 .inf rfl,
   c4_numeric_amended.2.2.1 5 0 (by decide),
   c4_numeric_amended.2.2.2 ((10 : Int) ^ 400) 0 (by decide)⟩

/-! ### Claim C3 -/

/-- A string of 40000 NUL characters. -/
def nulls40000 : String := String.mk (List.replicate 40000 '\x00')

/-- A string of 40000 ordinary characters. -/
def aaas40000 : String := String.mk (List.replicate 40000 'a')

/-- Claim C3 counterexample: the input below is a string of length
40000, yet `sanitize` returns the empty string — length 0, not 32767 —
because every NUL is removed before the truncation to 32767. -/
theorem c3_counterexample :
    nulls40000.toList.length = 40000 ∧
    safe_excel_value (.str nulls40000) = .str "" ∧
    ("" : String).toList.length ≠ 32767 := by
  refine ⟨by rw [show nulls40000.toList = List.replicate 40000 '\x00' from rfl,
    List.length_replicate], ?_, by decide⟩
  rw [safe_excel_value_str]
  show PyVal.str (sanitizeStr nulls40000) = .str ""
  unfold sanitizeStr
  rw [show nulls40000.toList = List.replicate 40000 '\x00' from rfl,
    filter_replicate_of_neg (by decide) 40000]
  rfl

/-- Claim C3 (amended): NaN and infinite floats sanitize to null; a
string of length 40000 none of whose characters are in the stripped
control class sanitizes to a string of length exactly 32767; the list
of strings joins with a pipe; and the mixed list becomes its JSON
dump. -/
theorem c3_sanitizer_amended :
    (∀ f : PyFloat, f.isFinite = false → safe_excel_value (.float f) = .none) ∧
    (∀ s : String, s.toList.length = 40000 →
      (∀ c ∈ s.toList, strippedCtrl c = false) →
      safe_excel_value (.str s) = .str (String.mk (s.toList.take 32767)) ∧
      (String.mk (s.toList.take 32767)).toList.length = 32767) ∧
    safe_excel_value (.list [.str "a", .str "b"]) = .str "a | b" ∧
    safe_excel_value (.list [.int 1, .str "a"]) = .str "[1, \"a\"]" := by
  refine ⟨fun f hf => safe_excel_value_nonfinite hf, fun s hlen hctrl => ⟨?_, ?_⟩, rfl, rfl⟩
  · rw [safe_excel_value_str]
    unfold sanitizeStr
    rw [List.filter_eq_self.mpr (fun a ha => by rw [Bool.not_eq_true', hctrl a ha])]
  · show (s.toList.take 32767).length = 32767
    rw [List.length_take, hlen]
    decide

/-- Witness for claim C3 at concrete inputs. -/
theorem c3_sanitizer_amended_witness :
    safe_excel_value (.float .nan) = .none ∧
    safe_excel_value (.str aaas40000) = .str (String.mk (aaas40000.toList.take 32767)) ∧
    (String.mk (aaas40000.toList.take 32767)).toList.length = 32767 := by
  have h := c3_sanitizer_amended.2.1 aaas40000
    (by rw [show aaas40000.toList = List.replicate 40000 'a' from rfl, List.length_replicate])
    (fun c hc => by
      rw [List.eq_of_mem_replicate
        (show c ∈ List.replicate 40000 'a' from hc)]
      decide)
  exact ⟨c3_sanitizer_amended.1 .nan rfl, h.1, h.2⟩

/-! ### Claim C10 -/

/-- An empty worksheet, used by several concrete witness scenarios. -/
def emptyWs : Ws := { val := fun _ _ => .none, maxRow := 1, maxCol := 1 }

/-- Claim C10 counterexample: the numeric-set key `hours.ui_design`
holds the string `abc`, which does not parse as a float, so
`safe_numeric_convert` returns null for it — yet the cell loop never
writes the sanitised string: the earlier numeric key `num_components`
holds the int `10 ^ 400`, `float(value)` at line 103 raises
`OverflowError`, the per-row handler at line 338 abandons the rest of
the row, and the destination cell stays empty. -/
theorem c10_counterexample :
    safe_numeric_convert (.str "abc") = .ok Option.none ∧
    safe_numeric_convert (.int ((10 : Int) ^ 400))
      = .error "int too large to convert to float" ∧
    (exOut (writeRowVals 5 [("num_components", 2), ("hours.ui_design", 3)]
      [("num_components", .int ((10 : Int) ^ 400)), ("hours.ui_design", .str "abc")]
      emptyWs)).val 5 3 = PyVal.none ∧
    PyVal.none ≠ .str (sanitizeStr "abc") :=
  ⟨rfl, rfl, rfl, fun hh => PyVal.noConfusion hh⟩

/-- Claim C10 (amended): for a field key of the numeric-key set whose
flattened value is an ASCII string on which `safe_numeric_convert`
returns null, and provided no key of the column map triggers a raising
numeric coercion on this row (which would abandon the row mid-way), the
cell loop writes the original string value, sanitised, into the cell —
it neither skips the cell nor writes null.  (The ASCII restriction
marks the model's scope: CPython's `float` also reads non-ASCII Unicode
decimal digits.) -/
theorem c10_numeric_amended (colMap : List (String × Nat)) (flat : List (String × PyVal))
    (w : Ws) (r : Nat) (k : String) (c : Nat) (s : String)
    (hnd : (colMap.map Prod.snd).Nodup) (hmem : (k, c) ∈ colMap) (hc : ¬ 1000 < c)
    (hk : JSON_NUMERIC_KEYS.contains k = true)
    (hv : pyGet flat k = .str s)
    (ha : s.toList.all (fun ch => ch.toNat ≤ 127) = true)
    (hconv : safe_numeric_convert (.str s) = .ok Option.none)
    (hok : flatConvertOk flat colMap = true) :
    (exOut (writeRowVals r colMap flat w)).val r c = .str (sanitizeStr s) := by
  have h1 : writtenCellValue k (.str s) = .str (sanitizeStr s) := by
    unfold writtenCellValue
    rw [if_pos hk, hconv]
    rfl
  rw [writeRowVals_val_write hnd hmem hc hv rfl hok]
  exact h1

/-- Witness for claim C10 at concrete inputs: the hour-bucket key
`hours.ui_design` carrying the unparsable string `abc`, alone in the
column map. -/
theorem c10_numeric_amended_witness :
    (exOut (writeRowVals 5 [("hours.ui_design", 3)] [("hours.ui_design", .str "abc")]
      emptyWs)).val 5 3 = .str (sanitizeStr "abc") :=
  c10_numeric_amended [("hours.ui_design", 3)] [("hours.ui_design", .str "abc")]
    emptyWs 5 "hours.ui_design" 3 "abc" (by decide) (by decide) (by decide) (by decide)
    rfl (by decide) rfl rfl

/-! ### Unfolding the writer on a non-empty batch -/

lemma write_rows_cons_eq (ws : Ws) (r0 : PyVal) (rest : List PyVal)
    (h3 : dataColsOf (locate_columns ws) ≠ []) :
    write_rows_to_estimation ws (r0 :: rest)
      = .ok (processRows (find_header_row ws)
          (get_last_filled_data_row ws (dataColsOf (locate_columns ws)) (find_header_row ws))
          (locate_columns ws) ws
          (next_empty_data_row ws (dataColsOf (locate_columns ws)) (find_header_row ws))
          (r0 :: rest)) := by
  unfold write_rows_to_estimation
  rw [if_neg (by rw [List.isEmpty_cons]; exact Bool.false_ne_true)]
  rw [if_neg (fun hh => h3 (List.isEmpty_iff.mp hh))]

/-! ### Claim C1 -/

/-- The worksheet of the C1 counterexample: a `Module` header at (1,1),
one filled data row at row 2 with a formula in column 100, row 3
empty; the sheet is 100 columns wide. -/
def wsC1cex : Ws :=
  { val := fun r c =>
      if r = 1 ∧ c = 1 then .str "Module"
      else if r = 2 ∧ c = 1 then .str "x"
      else if r = 2 ∧ c = 100 then .str "=SUM(A1:A5)"
      else .none,
    maxRow := 2, maxCol := 100 }

/-- Claim C1 counterexample: column 100 lies within the first 100
columns, outside the data columns, the source row holds the formula
and the destination cell starts empty — yet the writer does not copy
the formula: `copy_formulas` iterates `range(1, min(max_column + 1,
100))`, whose last column is 99, so column 100 is never copied and the
new row's cell stays empty. -/
theorem c1_counterexample :
    wsC1cex.val 2 100 = .str "=SUM(A1:A5)" ∧
    isFormulaStr (wsC1cex.val 2 100) = true ∧
    (100 : Nat) ≤ wsC1cex.maxCol ∧
    (100 : Nat) ∉ (locate_columns wsC1cex).map Prod.snd ∧
    isEmptyVal (wsC1cex.val 3 100) = true ∧
    (match write_rows_to_estimation wsC1cex [.dict [("module", .str "y")]] with
     | .ok w => w.val 3 100
     | .error _ => .str "=SUM(A1:A5)") = PyVal.none := by
  refine ⟨rfl, by decide, by decide, by decide, by decide, ?_⟩
  rfl

/-- Claim C1 (amended): formula preservation holds only up to column
99.  For a worksheet whose data region holds exactly one pre-existing
filled row at `headerRow + 1` (so the next empty data row is
`headerRow + 2` and the last filled data row is `headerRow + 1`), with
a formula string in a column at most 99 and outside the mapped data
columns, and whose cell in the new row at that column is empty, writing
one new row copies the identical formula string into the new row's cell
in the same column, leaves the source row's cell unchanged, and never
writes a formula into a destination cell of the new row that was
already non-empty.  (The code's copy loop is
`range(1, min(max_column + 1, 100))`: column 100 is excluded, as the
counterexample shows.) -/
theorem c1_formula_amended (ws : Ws) (row : List (String × PyVal))
    (hr : Nat) (cmap : List (String × Nat)) (col : Nat) (f : String)
    (h1 : find_header_row ws = hr)
    (h2 : locate_columns ws = cmap)
    (h3 : dataColsOf cmap ≠ [])
    (h4 : next_empty_data_row ws (dataColsOf cmap) hr = hr + 2)
    (h5 : get_last_filled_data_row ws (dataColsOf cmap) hr = hr + 1)
    (h6 : ws.val (hr + 1) col = .str f)
    (h7 : isFormulaStr (.str f) = true)
    (h8a : 1 ≤ col) (h8b : col ≤ ws.maxCol) (h8c : col ≤ 99)
    (h9 : col ∉ cmap.map Prod.snd)
    (h10 : isEmptyVal (ws.val (hr + 2) col) = true) :
    ∃ ws2, write_rows_to_estimation ws [.dict row] = .ok ws2 ∧
      ws2.val (hr + 2) col = .str f ∧
      ws2.val (hr + 1) col = .str f ∧
      (∀ c2, isEmptyVal (ws.val (hr + 2) c2) = false → c2 ∉ cmap.map Prod.snd →
        ws2.val (hr + 2) c2 = ws.val (hr + 2) c2) := by
  have hrw := write_rows_cons_eq ws (.dict row) [] (h2 ▸ h3)
  rw [h1, h2, h4, h5] at hrw
  have hP := processRows_singleton_dict hr (hr + 1) cmap ws (hr + 2) row
  have htv : ∀ r2 c2, (if ws.maxRow < hr + 2 then touchCell ws (hr + 2) 1 else ws).val r2 c2
      = ws.val r2 c2 := by
    intro r2 c2
    split
    · rfl
    · rfl
  have htc : ws.maxCol ≤ (if ws.maxRow < hr + 2 then touchCell ws (hr + 2) 1 else ws).maxCol := by
    split
    · exact Nat.le_max_left _ _
    · exact Nat.le_refl _
  have hcond : hr + 1 < hr + 2 ∧ hr < hr + 1 := ⟨Nat.lt_succ_self _, Nat.lt_succ_self _⟩
  refine ⟨_, hrw, ?_, ?_, ?_⟩
  · -- the new row's cell receives the formula
    rw [hP, writeRowVals_val_untouched (Or.inr h9), if_pos hcond]
    rw [copy_formulas_copies (by omega) h8a
      (Nat.lt_min.mpr ⟨by omega, by omega⟩)
      (by rw [htv]; exact h10) (by rw [htv, h6]; exact h7)]
    rw [htv, h6]
  · -- the source row's cell is unchanged
    rw [processRows_frame (Nat.lt_succ_self (hr + 1)), h6]
  · -- a non-empty cell of the new row outside the data columns is untouched
    intro c2 hc2e hc2m
    rw [hP, writeRowVals_val_untouched (Or.inr hc2m), if_pos hcond]
    rw [copy_formulas_nonempty_frame (by rw [htv]; exact hc2e)]
    exact htv _ _

/-- The template worksheet of the C1 witness: a `Module` header at
(1,1), one filled data row at row 2 with a formula in column 2, row 3
empty. -/
def wsC1 : Ws :=
  { val := fun r c =>
      if r = 1 ∧ c = 1 then .str "Module"
      else if r = 2 ∧ c = 1 then .str "x"
      else if r = 2 ∧ c = 2 then .str "=SUM(A1:A5)"
      else .none,
    maxRow := 2, maxCol := 2 }

/-- Witness for claim C1 at a concrete template and row. -/
theorem c1_formula_amended_witness :
    ∃ ws2, write_rows_to_estimation wsC1 [.dict [("module", .str "y")]] = .ok ws2 ∧
      ws2.val 3 2 = .str "=SUM(A1:A5)" ∧
      ws2.val 2 2 = .str "=SUM(A1:A5)" ∧
      (∀ c2, isEmptyVal (wsC1.val 3 c2) = false →
        c2 ∉ ([("module", 1)] : List (String × Nat)).map Prod.snd →
        ws2.val 3 c2 = wsC1.val 3 c2) :=
  c1_formula_amended wsC1 [("module", .str "y")] 1 [("module", 1)] 2 "=SUM(A1:A5)"
    (by decide) (by decide) (by decide) (by decide) (by decide) rfl (by decide)
    (by decide) (by decide) (by decide) (by decide) (by decide)

/-! ### Characterising searches over row ranges -/

lemma range'_find?_eq_some {p : Nat → Bool} {s n t : Nat} (h1 : s ≤ t) (h2 : t < s + n)
    (h3 : p t = true) (h4 : ∀ j, s ≤ j → j < t → p j = false) :
    (List.range' s n).find? p = some t := by
  induction n generalizing s with
  | zero => omega
  | succ n ih =>
    rw [List.range'_succ, List.find?_cons]
    by_cases hst : s = t
    · subst hst
      rw [h3]
    · have hslt : s < t := Nat.lt_of_le_of_ne h1 hst
      rw [h4 s (Nat.le_refl s) hslt]
      exact ih hslt (by omega)
        (fun j hj1 hj2 => h4 j (Nat.le_of_succ_le hj1) hj2)

/-! ### Every located column index is at most 200 -/

lemma scan_dedup_mem {l acc : List (String × Nat)} {kc : String × Nat}
    (h : kc ∈ l.foldl (fun m x => if (m.lookup x.1).isSome then m else m ++ [x]) acc) :
    kc ∈ acc ∨ kc ∈ l := by
  induction l generalizing acc with
  | nil => exact Or.inl h
  | cons x rest ih =>
    rw [List.foldl_cons] at h
    rcases ih h with hacc | hrest
    · by_cases hx : (acc.lookup x.1).isSome
      · rw [if_pos hx] at hacc
        exact Or.inl hacc
      · rw [if_neg hx] at hacc
        rcases List.mem_append.mp hacc with h1 | h1
        · exact Or.inl h1
        · exact Or.inr (List.mem_cons.mpr (Or.inl (List.mem_singleton.mp h1)))
    · exact Or.inr (List.mem_cons_of_mem _ hrest)

lemma scan_cols_le (ws : Ws) {kc : String × Nat} (h : kc ∈ scan_header_columns ws) :
    kc.2 ≤ 200 := by
  unfold scan_header_columns at h
  rcases scan_dedup_mem h with hacc | hmem
  · cases hacc
  · rcases List.mem_flatMap.mp hmem with ⟨r, _, hin⟩
    rcases List.mem_filterMap.mp hin with ⟨c, hc, heq⟩
    have hcle : c ≤ 200 := by
      have := (List.mem_range'_1.mp hc).2
      omega
    revert heq
    cases ws.val r c with
    | none => intro heq; cases heq
    | bool b =>
      intro heq; dsimp only at heq; split at heq
      · cases heq
      · cases heq; exact hcle
    | int n =>
      intro heq; dsimp only at heq; split at heq
      · cases heq
      · cases heq; exact hcle
    | float f =>
      intro heq; dsimp only at heq; split at heq
      · cases heq
      · cases heq; exact hcle
    | str s =>
      intro heq; dsimp only at heq; split at heq
      · cases heq
      · cases heq; exact hcle
    | list xs =>
      intro heq; dsimp only at heq; split at heq
      · cases heq
      · cases heq; exact hcle
    | dict kvs =>
      intro heq; dsimp only at heq; split at heq
      · cases heq
      · cases heq; exact hcle

lemma locate_columns_cols_le (ws : Ws) {kc : String × Nat}
    (h : kc ∈ locate_columns ws) : kc.2 ≤ 200 := by
  unfold locate_columns at h
  rcases List.mem_filterMap.mp h with ⟨hj, _, heq⟩
  revert heq
  cases hlu : (scan_header_columns ws).lookup hj.1 with
  | none => intro heq; cases heq
  | some c =>
    intro heq
    cases heq
    exact @scan_cols_le ws (hj.1, c) (lookup_mem hlu)

lemma dataColsOf_le (ws : Ws) {c : Nat} (h : c ∈ dataColsOf (locate_columns ws)) :
    c ≤ 200 := by
  unfold dataColsOf at h
  rcases List.mem_filterMap.mp h with ⟨k, _, heq⟩
  exact locate_columns_cols_le ws (lookup_mem heq)

/-! ### Claim C2 -/

/-- The worksheet of the C2 counterexample: `Module` and `# Comp.`
headers, data rows 2-4 filled in both data columns, row 5 empty. -/
def wsC2cex : Ws :=
  { val := fun r c =>
      if r = 1 ∧ c = 1 then .str "Module"
      else if r = 1 ∧ c = 2 then .str "# Comp."
      else if (r = 2 ∨ r = 3 ∨ r = 4) ∧ c = 1 then .str "x"
      else if (r = 2 ∨ r = 3 ∨ r = 4) ∧ c = 2 then .int 1
      else .none,
    maxRow := 4, maxCol := 2 }

/-- Claim C2 counterexample: the template satisfies the claim's
hypotheses (header row 1, rows 2-4 fully populated in both data
columns, row 5 empty there), yet with the first incoming row carrying
`num_components = 10 ^ 400` the second row does NOT land at
`headerRow + 5 = 6`: `float(value)` raises `OverflowError` mid-way
through the first row, the per-row handler at line 338 skips it
without incrementing `current_row`, and the second row overwrites the
first at row 5, leaving row 6 untouched. -/
theorem c2_counterexample :
    find_header_row wsC2cex = 1 ∧
    (∀ r ∈ [2, 3, 4], ∀ c ∈ dataColsOf (locate_columns wsC2cex),
      isEmptyVal (wsC2cex.val r c) = false) ∧
    (∀ c ∈ dataColsOf (locate_columns wsC2cex),
      isEmptyVal (wsC2cex.val 5 c) = true) ∧
    ("module", 1) ∈ locate_columns wsC2cex ∧
    pyGet (flatten_row [("module", .str "B")]) "module" = .str "B" ∧
    (match write_rows_to_estimation wsC2cex
        [.dict [("module", .str "A"), ("num_components", .int ((10 : Int) ^ 400))],
         .dict [("module", .str "B")]] with
     | .ok w => w.val 5 1
     | .error e => .str e) = .str "B" ∧
    (match write_rows_to_estimation wsC2cex
        [.dict [("module", .str "A"), ("num_components", .int ((10 : Int) ^ 400))],
         .dict [("module", .str "B")]] with
     | .ok w => w.val 6 1
     | .error e => .str e) = PyVal.none := by
  refine ⟨by decide, by decide, by decide, by decide, rfl, ?_, ?_⟩
  · rfl
  · rfl

/-- Claim C2 (amended): insertion point correctness holds provided no
value of either incoming row triggers a raising numeric coercion (an
`OverflowError` would make the per-row handler skip the row without
incrementing the insertion cursor, as the counterexample shows).  For a
worksheet whose rows `headerRow + 1 .. headerRow + 3` are fully
populated in every data column and whose row `headerRow + 4` is empty
in those columns, calling `writeRows` with 2 such rows writes them at
rows `headerRow + 4` and `headerRow + 5` (each mapped column whose
flattened value is non-null receives the written value of that row),
and every cell in rows at or below `headerRow + 3` keeps its prior
value. -/
theorem c2_insertion_amended (ws : Ws) (row1 row2 : List (String × PyVal))
    (hr : Nat) (cmap : List (String × Nat))
    (h1 : find_header_row ws = hr)
    (h2 : locate_columns ws = cmap)
    (h3 : dataColsOf cmap ≠ [])
    (hhr : hr ≤ ws.maxRow)
    (hnd : (cmap.map Prod.snd).Nodup)
    (hs1 : flatConvertOk (flatten_row row1) cmap = true)
    (hs2 : flatConvertOk (flatten_row row2) cmap = true)
    (hfill : ∀ r ∈ [hr + 1, hr + 2, hr + 3], ∀ c ∈ dataColsOf cmap,
      isEmptyVal (ws.val r c) = false)
    (hempty : ∀ c ∈ dataColsOf cmap, isEmptyVal (ws.val (hr + 4) c) = true) :
    ∃ ws2, write_rows_to_estimation ws [.dict row1, .dict row2] = .ok ws2 ∧
      (∀ r2 c2, r2 ≤ hr + 3 → ws2.val r2 c2 = ws.val r2 c2) ∧
      (∀ k c v, (k, c) ∈ cmap → pyGet (flatten_row row1) k = v → v ≠ .none →
        ws2.val (hr + 4) c = writtenCellValue k v) ∧
      (∀ k c v, (k, c) ∈ cmap → pyGet (flatten_row row2) k = v → v ≠ .none →
        ws2.val (hr + 5) c = writtenCellValue k v) := by
  have hp4 : ((dataColsOf cmap).all
      fun c => if 1000 < c then true else isEmptyVal (ws.val (hr + 4) c)) = true := by
    rw [List.all_eq_true]
    intro c hc
    by_cases h1000 : 1000 < c
    · simp [h1000]
    · simp only [if_neg h1000]
      exact hempty c hc
  have hpj : ∀ j, hr + 1 ≤ j → j < hr + 4 →
      ((dataColsOf cmap).all
        fun c => if 1000 < c then true else isEmptyVal (ws.val j c)) = false := by
    intro j hj1 hj2
    rw [List.all_eq_false]
    rcases hd : dataColsOf cmap with _ | ⟨c0, restc⟩
    · exact absurd hd h3
    · have hc0 : c0 ∈ dataColsOf cmap := by
        rw [hd]
        exact List.mem_cons_self _ _
      have hc0le : c0 ≤ 200 := dataColsOf_le ws (h2 ▸ hc0)
      refine ⟨c0, List.mem_cons_self _ _, ?_⟩
      rw [if_neg (by omega)]
      have hjm : j ∈ [hr + 1, hr + 2, hr + 3] := by
        have hj3 : j = hr + 1 ∨ j = hr + 2 ∨ j = hr + 3 := by omega
        rcases hj3 with h | h | h <;> simp [h]
      rw [hfill j hjm c0 hc0]
      decide
  have hfind : (List.range' (hr + 1) (min (ws.maxRow + 100) (hr + 1 + 5000) - (hr + 1))).find?
      (fun r => (dataColsOf cmap).all
        fun c => if 1000 < c then true else isEmptyVal (ws.val r c))
      = some (hr + 4) :=
    range'_find?_eq_some (by omega) (by omega) hp4 hpj
  have hnext : next_empty_data_row ws (dataColsOf cmap) hr = hr + 4 := by
    show (match (List.range' (hr + 1) (min (ws.maxRow + 100) (hr + 1 + 5000) - (hr + 1))).find?
        (fun r => (dataColsOf cmap).all
          fun c => if 1000 < c then true else isEmptyVal (ws.val r c)) with
      | some r => r
      | Option.none => ws.maxRow + 1) = hr + 4
    rw [hfind]
  have hrw := write_rows_cons_eq ws (.dict row1) [.dict row2] (h2 ▸ h3)
  rw [h1, h2, hnext] at hrw
  refine ⟨_, hrw, ?_, ?_, ?_⟩
  · intro r2 c2 hr2
    exact processRows_frame (by omega)
  · intro k c v hmem hv hvn
    have hcle : c ≤ 200 := locate_columns_cols_le ws (h2 ▸ hmem)
    rw [processRows_cons_dict_ok hs1, processRows_frame (Nat.lt_succ_self (hr + 4))]
    exact writeRowVals_val_write hnd hmem (by omega) hv (isNoneVal_false_of_ne hvn) hs1
  · intro k c v hmem hv hvn
    have hcle : c ≤ 200 := locate_columns_cols_le ws (h2 ▸ hmem)
    rw [processRows_cons_dict_ok hs1, processRows_singleton_dict]
    exact writeRowVals_val_write hnd hmem (by omega) hv (isNoneVal_false_of_ne hvn) hs2

/-- The template worksheet of the C2 witness: a `Module` header at
(1,1), data rows 2-4 filled in the single data column, row 5 empty. -/
def wsC2 : Ws :=
  { val := fun r c =>
      if r = 1 ∧ c = 1 then .str "Module"
      else if (r = 2 ∨ r = 3 ∨ r = 4) ∧ c = 1 then .str "x"
      else .none,
    maxRow := 4, maxCol := 1 }

/-- Witness for claim C2 at a concrete template and two rows. -/
theorem c2_insertion_amended_witness :
    ∃ ws2, write_rows_to_estimation wsC2
        [.dict [("module", .str "A")], .dict [("module", .str "B")]] = .ok ws2 ∧
      (∀ r2 c2, r2 ≤ 1 + 3 → ws2.val r2 c2 = wsC2.val r2 c2) ∧
      (∀ k c v, (k, c) ∈ ([("module", 1)] : List (String × Nat)) →
        pyGet (flatten_row [("module", .str "A")]) k = v → v ≠ .none →
        ws2.val (1 + 4) c = writtenCellValue k v) ∧
      (∀ k c v, (k, c) ∈ ([("module", 1)] : List (String × Nat)) →
        pyGet (flatten_row [("module", .str "B")]) k = v → v ≠ .none →
        ws2.val (1 + 5) c = writtenCellValue k v) :=
  c2_insertion_amended wsC2 [("module", .str "A")] [("module", .str "B")] 1 [("module", 1)]
    (by decide) (by decide) (by decide) (by decide) (by decide)
    (by decide) (by decide) (by decide) (by decide)

/-! ### Claim C8 -/

/-- The values that sanitise to null without being null: NaN and the
infinities. -/
def isNonFiniteFloat : PyVal → Bool
  | .float .nan => true
  | .float .inf => true
  | .float .neginf => true
  | _ => false

/-- A row none of whose flattened values is a NaN or infinite float
(non-dict rows are skipped by the writer and are vacuously safe). -/
def rowWriteSafe : PyVal → Bool
  | .dict kvs => (flatten_row kvs).all (fun kv => !isNonFiniteFloat kv.2)
  | _ => true

lemma safe_excel_value_ne_none {v : PyVal} (h1 : v ≠ .none)
    (h2 : isNonFiniteFloat v = false) : safe_excel_value v ≠ .none := by
  cases v with
  | none => exact absurd rfl h1
  | bool b => intro h; cases h
  | int n => intro h; cases h
  | float f =>
    cases f with
    | nan => simp [isNonFiniteFloat] at h2
    | inf => simp [isNonFiniteFloat] at h2
    | neginf => simp [isNonFiniteFloat] at h2
    | finite m e =>
      show (if inDoubleRange m e then PyVal.float (.finite m e)
        else PyVal.str (floatRepr (.finite m e))) ≠ .none
      split
      · exact fun h => PyVal.noConfusion h
      · exact fun h => PyVal.noConfusion h
  | str s => intro h; cases h
  | list xs =>
    show (if xs.all (fun x => match x with | .str _ => true | _ => false)
        then PyVal.str (sanitizeStr (String.intercalate " | "
          (xs.map (fun x => match x with | .str s => s | _ => ""))))
        else PyVal.str (sanitizeStr (jsonDumps (.list xs)))) ≠ .none
    split
    · exact fun h => PyVal.noConfusion h
    · exact fun h => PyVal.noConfusion h
  | dict kvs => intro h; cases h

lemma writtenCellValue_ne_none {k : String} {v : PyVal} (h1 : v ≠ .none)
    (h2 : isNonFiniteFloat v = false) : writtenCellValue k v ≠ .none := by
  unfold writtenCellValue
  split
  · cases hc : safe_numeric_convert v with
    | error e => exact safe_excel_value_ne_none h1 h2
    | ok o =>
      cases o with
      | none => exact safe_excel_value_ne_none h1 h2
      | some f =>
        have hf := safe_numeric_convert_finite hc
        cases f with
        | finite m e => exact safe_excel_value_ne_none (fun hh => PyVal.noConfusion hh) rfl
        | nan => exact Bool.noConfusion hf
        | inf => exact Bool.noConfusion hf
        | neginf => exact Bool.noConfusion hf
  · exact safe_excel_value_ne_none h1 h2

lemma isFormulaStr_ne_none {v : PyVal} (h : isFormulaStr v = true) : v ≠ .none := by
  cases v with
  | str s => intro hh; cases hh
  | none => simp [isFormulaStr] at h
  | bool b => simp [isFormulaStr] at h
  | int n => simp [isFormulaStr] at h
  | float f => simp [isFormulaStr] at h
  | list xs => simp [isFormulaStr] at h
  | dict kvs => simp [isFormulaStr] at h

lemma pyGet_mem {flat : List (String × PyVal)} {k : String} {v : PyVal}
    (h : pyGet flat k = v) (hv : v ≠ .none) : (k, v) ∈ flat := by
  unfold pyGet at h
  revert h
  cases hl : flat.lookup k with
  | none => intro h; exact absurd h.symm hv
  | some w => intro h; cases h; exact lookup_mem hl

lemma setCell_val_or (ws : Ws) (r c : Nat) (v : PyVal) (r2 c2 : Nat) :
    (setCell ws r c v).val r2 c2 = ws.val r2 c2 ∨ (setCell ws r c v).val r2 c2 = v := by
  by_cases h : r2 = r ∧ c2 = c
  · right; simp [setCell, h]
  · left; exact setCell_val_of_ne _ _ h

lemma copyFormulaCell_val_or {src dst : Nat} {w : Ws} {c r2 c2 : Nat} :
    (copyFormulaCell src dst w c).val r2 c2 = w.val r2 c2 ∨
    (copyFormulaCell src dst w c).val r2 c2 ≠ .none := by
  unfold copyFormulaCell
  split
  next hcond =>
    rcases setCell_val_or w dst c (w.val src c) r2 c2 with h | h
    · exact Or.inl h
    · right
      rw [h]
      exact isFormulaStr_ne_none hcond.2
  next => exact Or.inl rfl

lemma copyFold_val_or {src dst : Nat} {cols : List Nat} {w : Ws} {r2 c2 : Nat} :
    (cols.foldl (copyFormulaCell src dst) w).val r2 c2 = w.val r2 c2 ∨
    (cols.foldl (copyFormulaCell src dst) w).val r2 c2 ≠ .none := by
  induction cols generalizing w with
  | nil => exact Or.inl rfl
  | cons c0 rest ih =>
    rw [List.foldl_cons]
    rcases ih (w := copyFormulaCell src dst w c0) with h | h
    · rw [h]
      exact copyFormulaCell_val_or
    · exact Or.inr h

lemma copy_formulas_val_or {ws : Ws} {src dst r2 c2 : Nat} :
    (copy_formulas ws src dst).val r2 c2 = ws.val r2 c2 ∨
    (copy_formulas ws src dst).val r2 c2 ≠ .none :=
  copyFold_val_or

lemma writeCellStep_ok_val_or {r : Nat} {flat : List (String × PyVal)} {w w2 : Ws}
    {kc : String × Nat} {r2 c2 : Nat}
    (hstep : writeCellStep r flat w kc = .ok w2)
    (hflat : ∀ kv ∈ flat, isNonFiniteFloat kv.2 = false) :
    w2.val r2 c2 = w.val r2 c2 ∨ w2.val r2 c2 ≠ .none := by
  unfold writeCellStep at hstep
  split at hstep
  · cases hstep
    exact Or.inl rfl
  · split at hstep
    · cases hstep
      exact Or.inl rfl
    · split at hstep
      · exact Except.noConfusion hstep
      · rename_i hnone hraise
        cases hstep
        have hne : pyGet flat kc.1 ≠ .none :=
          ne_none_of_not_isNoneVal (by simpa using hnone)
        rcases setCell_val_or w r kc.2 (writtenCellValue kc.1 (pyGet flat kc.1)) r2 c2
          with hh | hh
        · exact Or.inl hh
        · right
          rw [hh]
          exact writtenCellValue_ne_none hne (hflat _ (pyGet_mem rfl hne))

lemma writeRowVals_val_or {r : Nat} {colMap : List (String × Nat)}
    {flat : List (String × PyVal)} {w : Ws} {r2 c2 : Nat}
    (hflat : ∀ kv ∈ flat, isNonFiniteFloat kv.2 = false) :
    (exOut (writeRowVals r colMap flat w)).val r2 c2 = w.val r2 c2 ∨
    (exOut (writeRowVals r colMap flat w)).val r2 c2 ≠ .none := by
  induction colMap generalizing w with
  | nil => exact Or.inl rfl
  | cons kc rest ih =>
    rw [writeRowVals_cons]
    cases hstep : writeCellStep r flat w kc with
    | ok w2 =>
      show (exOut (writeRowVals r rest flat w2)).val r2 c2 = w.val r2 c2 ∨
        (exOut (writeRowVals r rest flat w2)).val r2 c2 ≠ .none
      rcases ih (w := w2) with h | h
      · rw [h]
        exact writeCellStep_ok_val_or hstep hflat
      · exact Or.inr h
    | error w2 =>
      have he := writeCellStep_error_eq hstep
      subst he
      exact Or.inl rfl

lemma processRows_val_or {headerRow lastFilled : Nat} {colMap : List (String × Nat)}
    {rows : List PyVal} {ws : Ws} {cur r2 c2 : Nat}
    (hrows : ∀ row ∈ rows, rowWriteSafe row = true) :
    (processRows headerRow lastFilled colMap ws cur rows).val r2 c2 = ws.val r2 c2 ∨
    (processRows headerRow lastFilled colMap ws cur rows).val r2 c2 ≠ .none := by
  induction rows generalizing ws cur with
  | nil => exact Or.inl rfl
  | cons row rest ih =>
    have hrest : ∀ row2 ∈ rest, rowWriteSafe row2 = true :=
      fun row2 hm => hrows row2 (List.mem_cons_of_mem _ hm)
    cases row with
    | dict kvs =>
      have hsafe : ∀ kv ∈ flatten_row kvs, isNonFiniteFloat kv.2 = false := by
        have hx := hrows (.dict kvs) (List.mem_cons_self _ _)
        rw [rowWriteSafe, List.all_eq_true] at hx
        intro kv hkv
        have hy := hx kv hkv
        rwa [Bool.not_eq_true'] at hy
      have hcopy : (if (lastFilled < cur ∧ headerRow < lastFilled : Prop)
             then copy_formulas (if ws.maxRow < cur then touchCell ws cur 1 else ws)
               lastFilled cur
             else (if ws.maxRow < cur then touchCell ws cur 1 else ws)).val r2 c2
            = ws.val r2 c2 ∨
          (if (lastFilled < cur ∧ headerRow < lastFilled : Prop)
             then copy_formulas (if ws.maxRow < cur then touchCell ws cur 1 else ws)
               lastFilled cur
             else (if ws.maxRow < cur then touchCell ws cur 1 else ws)).val r2 c2
            ≠ .none := by
        split
        · rcases @copy_formulas_val_or (if ws.maxRow < cur then touchCell ws cur 1 else ws)
              lastFilled cur r2 c2 with h3 | h3
          · rw [h3]
            left
            split
            · rfl
            · rfl
          · exact Or.inr h3
        · left
          split
          · rfl
          · rfl
      have hpre : ∀ w3 : Ws,
          (writeRowVals cur colMap (flatten_row kvs)
              (if (lastFilled < cur ∧ headerRow < lastFilled : Prop)
               then copy_formulas (if ws.maxRow < cur then touchCell ws cur 1 else ws)
                 lastFilled cur
               else (if ws.maxRow < cur then touchCell ws cur 1 else ws)) = .ok w3 ∨
           writeRowVals cur colMap (flatten_row kvs)
              (if (lastFilled < cur ∧ headerRow < lastFilled : Prop)
               then copy_formulas (if ws.maxRow < cur then touchCell ws cur 1 else ws)
                 lastFilled cur
               else (if ws.maxRow < cur then touchCell ws cur 1 else ws)) = .error w3) →
          w3.val r2 c2 = ws.val r2 c2 ∨ w3.val r2 c2 ≠ .none := by
        intro w3 hW
        have hor := @writeRowVals_val_or cur colMap (flatten_row kvs)
          (if (lastFilled < cur ∧ headerRow < lastFilled : Prop)
           then copy_formulas (if ws.maxRow < cur then touchCell ws cur 1 else ws)
             lastFilled cur
           else (if ws.maxRow < cur then touchCell ws cur 1 else ws))
          r2 c2 hsafe
        have hout : w3.val r2 c2
              = (if (lastFilled < cur ∧ headerRow < lastFilled : Prop)
               then copy_formulas (if ws.maxRow < cur then touchCell ws cur 1 else ws)
                 lastFilled cur
               else (if ws.maxRow < cur then touchCell ws cur 1 else ws)).val r2 c2 ∨
            w3.val r2 c2 ≠ .none := by
          rcases hW with hW | hW
          · rw [hW] at hor
            exact hor
          · rw [hW] at hor
            exact hor
        rcases hout with hout | hout
        · rw [hout]
          exact hcopy
        · exact Or.inr hout
      rw [processRows_cons_dict]
      cases hW : writeRowVals cur colMap (flatten_row kvs)
          (if (lastFilled < cur ∧ headerRow < lastFilled : Prop)
           then copy_formulas (if ws.maxRow < cur then touchCell ws cur 1 else ws)
             lastFilled cur
           else (if ws.maxRow < cur then touchCell ws cur 1 else ws)) with
      | ok w3 =>
        show (processRows headerRow lastFilled colMap w3 (cur + 1) rest).val r2 c2
            = ws.val r2 c2 ∨
          (processRows headerRow lastFilled colMap w3 (cur + 1) rest).val r2 c2 ≠ .none
        rcases @ih w3 (cur + 1) hrest with h | h
        · rw [h]
          exact hpre w3 (Or.inl hW)
        · exact Or.inr h
      | error w3 =>
        show (processRows headerRow lastFilled colMap w3 cur rest).val r2 c2
            = ws.val r2 c2 ∨
          (processRows headerRow lastFilled colMap w3 cur rest).val r2 c2 ≠ .none
        rcases @ih w3 cur hrest with h | h
        · rw [h]
          exact hpre w3 (Or.inr hW)
        · exact Or.inr h
    | none => exact ih hrest
    | bool b => exact ih hrest
    | int n => exact ih hrest
    | float f => exact ih hrest
    | str s => exact ih hrest
    | list xs => exact ih hrest

lemma write_rows_cons_error (ws : Ws) (r0 : PyVal) (rest : List PyVal)
    (hd : dataColsOf (locate_columns ws) = []) :
    write_rows_to_estimation ws (r0 :: rest)
      = .error ("Error writing rows to worksheet: Could not locate required columns in \x27Estimation\x27. Found columns: "
          ++ pyReprStrList ((locate_columns ws).map Prod.fst)) := by
  unfold write_rows_to_estimation
  rw [if_neg (by rw [List.isEmpty_cons]; exact Bool.false_ne_true)]
  rw [if_pos (by rw [hd]; rfl)]

/-- The template worksheet of the C8 counterexample: `Module` and
`Features` headers, one filled data row at row 2 whose `Features`
column holds a formula string, row 3 empty. -/
def wsC8 : Ws :=
  { val := fun r c =>
      if r = 1 ∧ c = 1 then .str "Module"
      else if r = 1 ∧ c = 2 then .str "Features"
      else if r = 2 ∧ c = 1 then .str "x"
      else if r = 2 ∧ c = 2 then .str "=F(2)"
      else .none,
    maxRow := 2, maxCol := 2 }

/-- Claim C8 counterexample: the incoming row leaves the `feature` key
absent, so its flattened value is null, and the `feature` column cell
of the new row 3 starts out empty — yet after `writeRows` that
destination cell is not unchanged: the copy-down step filled it with
the formula string from row 2.  The writer does not leave every
null-valued key's destination cell unchanged. -/
theorem c8_counterexample :
    pyGet (flatten_row [("module", .str "y")]) "feature" = PyVal.none ∧
    ("feature", 2) ∈ locate_columns wsC8 ∧
    wsC8.val 3 2 = PyVal.none ∧
    (match write_rows_to_estimation wsC8 [.dict [("module", .str "y")]] with
     | .ok w => w.val 3 2
     | .error _ => PyVal.none) = .str "=F(2)" :=
  ⟨rfl, by decide, rfl, rfl⟩

/-- Claim C8 (amended): the VALUE-writing loop never touches the
destination cell of a field key whose flattened value is null — the
cell keeps whatever the copy-down step left there (which may be a
copied formula, as the counterexample shows); and `writeRows` never
writes a null value into any cell provided no flattened value is a NaN
or infinite float (those sanitize to null and are written): every cell
the run changes ends up non-null. -/
theorem c8_null_skip_amended :
    (∀ w : Ws, ∀ r : Nat, ∀ colMap : List (String × Nat),
      ∀ flat : List (String × PyVal), ∀ k : String, ∀ c : Nat,
      (colMap.map Prod.snd).Nodup → (k, c) ∈ colMap → pyGet flat k = .none →
      (exOut (writeRowVals r colMap flat w)).val r c = w.val r c) ∧
    (∀ ws : Ws, ∀ rows : List PyVal, ∀ ws2 : Ws,
      write_rows_to_estimation ws rows = .ok ws2 →
      (∀ row ∈ rows, rowWriteSafe row = true) →
      ∀ r c, ws2.val r c ≠ ws.val r c → ws2.val r c ≠ PyVal.none) := by
  constructor
  · intro w r colMap flat k c hnd hmem hv
    exact writeRowVals_val_skip hnd hmem hv
  · intro ws rows ws2 hok hsafe r c hne
    cases rows with
    | nil =>
      have hws : ws = ws2 := Except.ok.inj hok
      subst hws
      exact absurd rfl hne
    | cons r0 rest =>
      by_cases hd : dataColsOf (locate_columns ws) = []
      · rw [write_rows_cons_error ws r0 rest hd] at hok
        cases hok
      · rw [write_rows_cons_eq ws r0 rest hd] at hok
        have hws := Except.ok.inj hok
        subst hws
        rcases processRows_val_or hsafe with h | h
        · exact absurd h hne
        · exact h

/-- Witness for claim C8: the skip applied at a concrete column map and
flat row, and the no-null-write property applied to a concrete run. -/
theorem c8_null_skip_amended_witness :
    (exOut (writeRowVals 3 [("feature", 2)] [("feature", PyVal.none)] wsC8)).val 3 2
      = wsC8.val 3 2 ∧
    (∀ r c, wsC8.val r c ≠ wsC8.val r c → wsC8.val r c ≠ PyVal.none) :=
  ⟨c8_null_skip_amended.1 wsC8 3 [("feature", 2)] [("feature", PyVal.none)] "feature" 2
      (by decide) (by decide) rfl,
   c8_null_skip_amended.2 wsC8 [] wsC8 rfl (fun row h => absurd h (List.not_mem_nil row))⟩

/-! ### Claim C6 -/

/-- The hypothesis of claim C6: no row among `1..min(30, height or 1)`
passes the primary header test. -/
def noHeaderTargetRow (ws : Ws) : Bool :=
  (List.range' 1 (min 30 (max ws.maxRow 1))).all (fun r => !headerRowPred ws r)

lemma range'_find?_first {p : Nat → Bool} {s n r : Nat}
    (h : (List.range' s n).find? p = some r) :
    ∀ j, s ≤ j → j < r → p j = false := by
  induction n generalizing s with
  | zero => cases h
  | succ n ih =>
    rw [List.range'_succ, List.find?_cons] at h
    intro j hj1 hj2
    revert h
    cases hps : p s with
    | true =>
      intro h
      cases h
      omega
    | false =>
      intro h
      by_cases hjs : j = s
      · subst hjs; exact hps
      · exact ih h j (by omega) hj2

/-- The worksheet of the C6 counterexample: empty except for one value
at row 10, column 1; its height is 10. -/
def wsC6 : Ws :=
  { val := fun r c => if r = 10 ∧ c = 1 then .str "x" else .none,
    maxRow := 10, maxCol := 1 }

/-- Claim C6 counterexample: no row passes the primary header test,
rows 1..9 are entirely empty, and row 10 holds a non-empty cell in its
first column — so the first of rows 1..10 with a non-empty cell within
the first 20 columns is row 10 — yet `find_header_row` returns 1: the
fallback loop `range(1, min(10, ws.max_row + 1))` never examines row
10. -/
theorem c6_counterexample :
    noHeaderTargetRow wsC6 = true ∧
    (∀ r ∈ [1, 2, 3, 4, 5, 6, 7, 8, 9],
      ∀ c ∈ List.range' 1 20, isEmptyVal (wsC6.val r c) = true) ∧
    isEmptyVal (wsC6.val 10 1) = false ∧
    find_header_row wsC6 = 1 := by
  refine ⟨by decide, by decide, by decide, by decide⟩

/-- Claim C6 (amended): when no row among `1..min(30, height or 1)`
passes the primary header test, `find_header_row` returns the first of
rows `1..min(9, height)` that contains a non-empty cell within the
first `min(20, width or 1)` columns, and returns 1 when no such row
exists.  (The code's fallback range stops at row `min(9, height)`, not
row 10 as the claim stated.) -/
theorem c6_fallback_amended (ws : Ws) (h : noHeaderTargetRow ws = true) :
    (∃ r, 1 ≤ r ∧ r ≤ min 9 ws.maxRow ∧
      (∃ c, 1 ≤ c ∧ c ≤ min (max ws.maxCol 1) 20 ∧ isEmptyVal (ws.val r c) = false) ∧
      (∀ r2, 1 ≤ r2 → r2 < r →
        ∀ c, 1 ≤ c → c ≤ min (max ws.maxCol 1) 20 → isEmptyVal (ws.val r2 c) = true) ∧
      find_header_row ws = r) ∨
    ((∀ r, 1 ≤ r → r ≤ min 9 ws.maxRow →
       ∀ c, 1 ≤ c → c ≤ min (max ws.maxCol 1) 20 → isEmptyVal (ws.val r c) = true) ∧
     find_header_row ws = 1) := by
  have hnone : (List.range' 1 (min 30 (max ws.maxRow 1))).find? (headerRowPred ws)
      = Option.none := by
    rw [List.find?_eq_none]
    intro x hx hc
    have h2 := List.all_eq_true.mp h x hx
    rw [Bool.not_eq_true'] at h2
    rw [h2] at hc
    cases hc
  have hfhr : find_header_row ws
      = match (List.range' 1 (min 10 (ws.maxRow + 1) - 1)).find? (fallbackRowPred ws) with
        | some r => r
        | Option.none => 1 := by
    unfold find_header_row
    rw [hnone]
  cases hf : (List.range' 1 (min 10 (ws.maxRow + 1) - 1)).find? (fallbackRowPred ws) with
  | some r =>
    left
    have hmem := List.mem_of_find?_eq_some hf
    have hrange := List.mem_range'_1.mp hmem
    have hpr := List.find?_some hf
    have hfirst := range'_find?_first hf
    refine ⟨r, by omega, by omega, ?_, ?_, by rw [hfhr, hf]⟩
    · rcases List.any_eq_true.mp hpr with ⟨c, hcm, hcv⟩
      have hcr := List.mem_range'_1.mp hcm
      refine ⟨c, by omega, by omega, ?_⟩
      rwa [Bool.not_eq_true'] at hcv
    · intro r2 hr21 hr22 c hc1 hc2
      have hps := hfirst r2 hr21 hr22
      rw [fallbackRowPred] at hps
      have := List.any_eq_false.mp hps c (List.mem_range'_1.mpr (by omega))
      simpa using this
  | none =>
    right
    constructor
    · intro r hr1 hr2 c hc1 hc2
      have hall := List.find?_eq_none.mp hf r (List.mem_range'_1.mpr (by omega))
      have hps : fallbackRowPred ws r = false := by
        cases hq : fallbackRowPred ws r with
        | true => exact absurd hq hall
        | false => rfl
      rw [fallbackRowPred] at hps
      have := List.any_eq_false.mp hps c (List.mem_range'_1.mpr (by omega))
      simpa using this
    · rw [hfhr, hf]

/-- Witness for claim C6 at a concrete worksheet: a sheet whose row 2
holds the first non-empty cell of the fallback range. -/
def wsC6w : Ws :=
  { val := fun r c => if r = 2 ∧ c = 1 then .str "Title" else .none,
    maxRow := 5, maxCol := 3 }

/-- Witness for claim C6: the amended fallback characterisation applied
to `wsC6w`, where it selects row 2. -/
theorem c6_fallback_amended_witness :
    (∃ r, 1 ≤ r ∧ r ≤ min 9 wsC6w.maxRow ∧
      (∃ c, 1 ≤ c ∧ c ≤ min (max wsC6w.maxCol 1) 20 ∧ isEmptyVal (wsC6w.val r c) = false) ∧
      (∀ r2, 1 ≤ r2 → r2 < r →
        ∀ c, 1 ≤ c → c ≤ min (max wsC6w.maxCol 1) 20 → isEmptyVal (wsC6w.val r2 c) = true) ∧
      find_header_row wsC6w = r) ∨
    ((∀ r, 1 ≤ r → r ≤ min 9 wsC6w.maxRow →
       ∀ c, 1 ≤ c → c ≤ min (max wsC6w.maxCol 1) 20 → isEmptyVal (wsC6w.val r c) = true) ∧
     find_header_row wsC6w = 1) :=
  c6_fallback_amended wsC6w (by decide)

/-! ### Claim C7 -/

lemma commaSep_mem_split {l : List String} {n : String} (h : n ∈ l) :
    ∃ a b, commaSep (l.map pyReprStr) = a ++ pyReprStr n ++ b := by
  induction l with
  | nil => cases h
  | cons x xs ih =>
    rcases List.mem_cons.mp h with hx | hx
    · subst hx
      cases xs with
      | nil =>
        refine ⟨"", "", ?_⟩
        show pyReprStr n = "" ++ pyReprStr n ++ ""
        simp
      | cons y ys =>
        refine ⟨"", ", " ++ commaSep ((y :: ys).map pyReprStr), ?_⟩
        show pyReprStr n ++ ", " ++ commaSep ((y :: ys).map pyReprStr) = _
        simp [String.append_assoc]
    · rcases ih hx with ⟨a, b, hab⟩
      cases xs with
      | nil => cases hx
      | cons y ys =>
        refine ⟨pyReprStr x ++ ", " ++ a, b, ?_⟩
        show pyReprStr x ++ ", " ++ commaSep ((y :: ys).map pyReprStr) = _
        rw [hab]
        simp [String.append_assoc]

lemma sheetNotFoundMsg_mentions {names : List String} {n : String} (h : n ∈ names) :
    ∃ a b, sheetNotFoundMsg names = a ++ pyReprStr n ++ b := by
  rcases commaSep_mem_split h with ⟨a, b, hab⟩
  refine ⟨"Sheet \x27Estimation\x27 not found. Available sheets: " ++ "[" ++ a,
    b ++ "]", ?_⟩
  unfold sheetNotFoundMsg pyReprStrList
  rw [hab]
  simp only [String.append_assoc]

/-- Claim C7: fatal-path guarantees.  A payload that is not a dict with
a `rows` key makes the run fail with the `rows`-key error for every
workbook — before any workbook mutation, and with no output produced
(`Except.error` carries no saved workbook).  A payload that passes the
JSON checks against a workbook with no sheet literally named
`Estimation` makes the run fail with the sheet-not-found error, whose
message mentions the `repr` of every sheet name that does exist; again
no output workbook is produced. -/
theorem c7_fatal_paths :
    (∀ data : PyVal, ∀ wb : Workbook, hasRowsKey data = false →
      mainModel data wb = .error "JSON must contain a \x27rows\x27 key") ∧
    (∀ data : PyVal, ∀ wb : Workbook, hasRowsKey data = true → rowsIsList data = true →
      (∀ nv ∈ wb.sheets, nv.1 ≠ TARGET_SHEET) →
      mainModel data wb = .error (sheetNotFoundMsg (wb.sheets.map Prod.fst)) ∧
      (∀ n ∈ wb.sheets.map Prod.fst, ∃ a b,
        sheetNotFoundMsg (wb.sheets.map Prod.fst) = a ++ pyReprStr n ++ b)) := by
  constructor
  · intro data wb h
    unfold mainModel
    rw [if_pos (by simp [h])]
  · intro data wb h1 h2 h3
    refine ⟨?_, fun n hn => sheetNotFoundMsg_mentions hn⟩
    unfold mainModel
    rw [if_neg (by simp [h1]), if_neg (by simp [h2]), if_pos ?_]
    intro hc
    rcases List.any_eq_true.mp hc with ⟨nv, hmem, heq⟩
    exact h3 nv hmem (by simpa using heq)

/-- Witness for claim C7: a non-dict payload against a one-sheet
workbook, and a well-formed payload against a workbook whose two sheets
are named `Alpha` and `Beta`. -/
theorem c7_fatal_paths_witness :
    mainModel (.int 5) ⟨[("Sheet1", emptyWs)]⟩
      = .error "JSON must contain a \x27rows\x27 key" ∧
    mainModel (.dict [("rows", .list [])]) ⟨[("Alpha", emptyWs), ("Beta", emptyWs)]⟩
      = .error (sheetNotFoundMsg ["Alpha", "Beta"]) :=
  ⟨c7_fatal_paths.1 (.int 5) ⟨[("Sheet1", emptyWs)]⟩ rfl,
   (c7_fatal_paths.2 (.dict [("rows", .list [])]) ⟨[("Alpha", emptyWs), ("Beta", emptyWs)]⟩
     rfl rfl (by
       intro nv hm
       rcases List.mem_cons.mp hm with h | h
       · rw [h]; decide
       · rcases List.mem_cons.mp h with h2 | h2
         · rw [h2]; decide
         · cases h2)).1⟩

/-! ### Claim C5 -/

/-- The characters for which the amended idempotence claim holds: the
kept class of `norm` together with the ASCII uppercase letters. -/
def goodHeaderChar (c : Char) : Bool :=
  isAllowedChar c ∨ (0x41 ≤ c.toNat ∧ c.toNat ≤ 0x5A)

/-- Claim C5 counterexample: `norm` strips before filtering, so a
stripped character adjacent to boundary whitespace leaves a trailing
space that a second application removes — `norm` is not idempotent. -/
theorem c5_counterexample :
    normS "a \x01" = "a " ∧ normS (normS "a \x01") = "a" ∧
    normS (normS "a \x01") ≠ normS "a \x01" := by
  refine ⟨by decide, by decide, by decide⟩

lemma pyLowerChar_allowed {c : Char} (h : isAllowedChar c = true) :
    pyLowerChar c = c := by
  unfold pyLowerChar
  rw [if_neg]
  intro hc
  unfold isAllowedChar at h
  rw [decide_eq_true_eq] at h
  unfold isPySpace at h
  rcases h with h | h | h | h | h | h | h | h | h
  · omega
  · omega
  · rw [h] at hc; exact absurd hc (by decide)
  · rw [h] at hc; exact absurd hc (by decide)
  · rw [h] at hc; exact absurd hc (by decide)
  · rw [h] at hc; exact absurd hc (by decide)
  · rw [h] at hc; exact absurd hc (by decide)
  · rw [h] at hc; exact absurd hc (by decide)
  · rw [decide_eq_true_eq] at h
    omega

lemma toNat_ofNat_lower {n : Nat} (h1 : 0x61 ≤ n) (h2 : n ≤ 0x7A) :
    (Char.ofNat n).toNat = n := by
  unfold Char.ofNat
  split
  · rfl
  · rename Nat.isValidChar n → False => h
    exact absurd (Or.inl (by omega)) h

lemma lower_good {c : Char} (h : goodHeaderChar c = true) :
    isAllowedChar (pyLowerChar c) = true := by
  unfold goodHeaderChar at h
  rw [decide_eq_true_eq] at h
  rcases h with h | h
  · rw [pyLowerChar_allowed h]
    exact h
  · unfold pyLowerChar
    rw [if_pos (by omega)]
    unfold isAllowedChar
    rw [decide_eq_true_eq]
    left
    rw [toNat_ofNat_lower (by omega) (by omega)]
    omega

lemma lower_nonspace {c : Char} (h : isPySpace c = false) :
    isPySpace (pyLowerChar c) = false := by
  unfold pyLowerChar
  split
  · rename_i hup
    cases hq : isPySpace (Char.ofNat (c.toNat + 32)) with
    | false => rfl
    | true =>
      exfalso
      unfold isPySpace at hq
      rw [decide_eq_true_eq] at hq
      rw [toNat_ofNat_lower (by omega) (by omega)] at hq
      omega
  · exact h

lemma nl_of_nonspace {c : Char} (h : isPySpace c = false) : nlChar c = c := by
  unfold nlChar
  rw [if_neg]
  intro hc
  rw [hc] at h
  exact absurd h (by decide)

lemma nl_allowed {c : Char} (h : isAllowedChar c = true) :
    isAllowedChar (nlChar c) = true := by
  unfold nlChar
  split
  · decide
  · exact h

lemma collapseRuns_head {p : Char → Bool} {rep : Char} (c : Char) (cs : List Char) :
    ∃ t, collapseRuns p rep (c :: cs) = (if p c then rep else c) :: t := by
  induction cs generalizing c with
  | nil => exact ⟨[], rfl⟩
  | cons c2 cs2 ih =>
    unfold collapseRuns
    split
    · rename_i hpp
      rcases ih c2 with ⟨t, ht⟩
      rw [ht, if_pos hpp.1, if_pos hpp.2]
      exact ⟨t, rfl⟩
    · exact ⟨collapseRuns p rep (c2 :: cs2), rfl⟩

lemma collapseRuns_mem {p : Char → Bool} {rep : Char} {l : List Char} {c : Char}
    (h : c ∈ collapseRuns p rep l) : c = rep ∨ (c ∈ l ∧ p c = false) := by
  induction l with
  | nil => cases h
  | cons c1 cs ih =>
    cases cs with
    | nil =>
      unfold collapseRuns at h
      revert h
      split
      · intro h
        rcases List.mem_singleton.mp h with h2
        exact Or.inl h2
      · rename_i hnp
        intro h
        rcases List.mem_singleton.mp h with h2
        subst h2
        exact Or.inr ⟨List.mem_singleton.mpr rfl, by
          cases hq : p c
          · rfl
          · exact absurd hq hnp⟩
    | cons c2 cs2 =>
      unfold collapseRuns at h
      revert h
      split
      · intro h
        rcases ih h with h2 | h2
        · exact Or.inl h2
        · exact Or.inr ⟨List.mem_cons_of_mem _ h2.1, h2.2⟩
      · rename_i hnpp
        intro h
        rcases List.mem_cons.mp h with h2 | h2
        · subst h2
          revert hnpp
          split
          · intro _; exact Or.inl rfl
          · rename_i hnp
            intro hnpp
            exact Or.inr ⟨List.mem_cons_self _ _, by
              cases hq : p c1
              · rfl
              · exact absurd hq hnp⟩
        · rcases ih h2 with h3 | h3
          · exact Or.inl h3
          · exact Or.inr ⟨List.mem_cons_of_mem _ h3.1, h3.2⟩

lemma collapseRuns_chain {p : Char → Bool} {rep : Char}
    (l : List Char) :
    List.Chain' (fun a b => ¬ (p a = true ∧ p b = true)) (collapseRuns p rep l) := by
  induction l with
  | nil => exact List.chain'_nil
  | cons c1 cs ih =>
    cases cs with
    | nil =>
      unfold collapseRuns
      split
      · exact List.chain'_singleton _
      · exact List.chain'_singleton _
    | cons c2 cs2 =>
      unfold collapseRuns
      split
      · exact ih
      · rename_i hnpp
        rcases @collapseRuns_head p rep c2 cs2 with ⟨t, ht⟩
        rw [ht]
        rw [List.chain'_cons]
        refine ⟨?_, ht ▸ ih⟩
        intro hc
        by_cases hp1 : p c1 = true
        · rw [if_pos hp1] at hc
          revert hc
          split
          · intro hc
            exact hnpp ⟨hp1, by assumption⟩
          · rename_i hnp2
            intro hc
            exact hnp2 hc.2
        · rw [if_neg hp1] at hc
          exact hp1 hc.1

lemma collapseRuns_chain_preserve {p q : Char → Bool} {rep : Char}
    (hrep : q rep = false) {l : List Char}
    (h : List.Chain' (fun a b => ¬ (q a = true ∧ q b = true)) l) :
    List.Chain' (fun a b => ¬ (q a = true ∧ q b = true)) (collapseRuns p rep l) := by
  induction l with
  | nil => exact List.chain'_nil
  | cons c1 cs ih =>
    cases cs with
    | nil =>
      unfold collapseRuns
      split
      · exact List.chain'_singleton _
      · exact List.chain'_singleton _
    | cons c2 cs2 =>
      rw [List.chain'_cons] at h
      unfold collapseRuns
      split
      · exact ih h.2
      · rcases @collapseRuns_head p rep c2 cs2 with ⟨t, ht⟩
        rw [ht, List.chain'_cons]
        refine ⟨?_, ht ▸ ih h.2⟩
        intro hc
        have hq1 : q (if p c1 then rep else c1) = true := hc.1
        have hq2 : q (if p c2 then rep else c2) = true := hc.2
        revert hq1 hq2
        split
        · intro hq1
          rw [hq1] at hrep
          cases hrep
        · split
          · intro hq1 hq2
            rw [hq2] at hrep
            cases hrep
          · intro hq1 hq2
            exact h.1 ⟨hq1, hq2⟩

lemma collapseRuns_eq_self {p : Char → Bool} {rep : Char} {l : List Char}
    (hrep : ∀ c ∈ l, p c = true → c = rep)
    (hchain : List.Chain' (fun a b => ¬ (p a = true ∧ p b = true)) l) :
    collapseRuns p rep l = l := by
  induction l with
  | nil => rfl
  | cons c1 cs ih =>
    cases cs with
    | nil =>
      unfold collapseRuns
      split
      · rename_i hp1
        rw [hrep c1 (List.mem_singleton.mpr rfl) hp1]
      · rfl
    | cons c2 cs2 =>
      rw [List.chain'_cons] at hchain
      unfold collapseRuns
      rw [if_neg hchain.1]
      have ihr := ih (fun c hc hp => hrep c (List.mem_cons_of_mem _ hc) hp) hchain.2
      rw [ihr]
      by_cases hp1 : p c1 = true
      · rw [if_pos hp1, hrep c1 (List.mem_cons_self _ _) hp1]
      · rw [if_neg hp1]

lemma collapseRuns_ne_nil {p : Char → Bool} {rep : Char} (c : Char) (cs : List Char) :
    collapseRuns p rep (c :: cs) ≠ [] := by
  rcases @collapseRuns_head p rep c cs with ⟨t, ht⟩
  rw [ht]
  exact List.cons_ne_nil _ _

lemma collapseRuns_getLast {p : Char → Bool} {rep : Char} {l : List Char} {c : Char}
    (h : l.getLast? = some c) :
    (collapseRuns p rep l).getLast? = some (if p c then rep else c) := by
  induction l with
  | nil => cases h
  | cons c1 cs ih =>
    cases cs with
    | nil =>
      rw [List.getLast?_singleton] at h
      cases h
      unfold collapseRuns
      split
      · rfl
      · rfl
    | cons c2 cs2 =>
      have hlast : (c1 :: c2 :: cs2).getLast? = (c2 :: cs2).getLast? := by
        rw [List.getLast?_cons_cons]
      rw [hlast] at h
      unfold collapseRuns
      split
      · exact ih h
      · have hne := @collapseRuns_ne_nil p rep c2 cs2
        rw [List.getLast?_cons]
        rcases ho : (collapseRuns p rep (c2 :: cs2)).getLast? with _ | d
        · rcases List.exists_mem_of_ne_nil _ hne with ⟨x, hx⟩
          rw [List.getLast?_eq_none_iff] at ho
          rw [ho] at hx
          cases hx
        · have := ih h
          rw [ho] at this
          cases this
          simp [ho]

lemma dropWhile_head_not {p : Char → Bool} {l : List Char} {c : Char}
    (h : (l.dropWhile p).head? = some c) : p c = false := by
  induction l with
  | nil => cases h
  | cons x t ih =>
    rw [List.dropWhile_cons] at h
    split at h
    · exact ih h
    · rename_i hnp
      cases h
      cases hq : p c
      · rfl
      · exact absurd hq hnp

lemma dropWhile_eq_self_of_head {p : Char → Bool} {l : List Char}
    (h : ∀ c, l.head? = some c → p c = false) : l.dropWhile p = l := by
  cases l with
  | nil => rfl
  | cons x t =>
    rw [List.dropWhile_cons, if_neg]
    rw [h x rfl]
    exact Bool.false_ne_true

lemma stripChars_mem {l : List Char} {c : Char} (h : c ∈ stripChars l) : c ∈ l := by
  unfold stripChars at h
  rw [List.mem_reverse] at h
  have h2 := (List.dropWhile_sublist isPySpace).subset h
  rw [List.mem_reverse] at h2
  exact (List.dropWhile_sublist isPySpace).subset h2

lemma stripChars_head_not {l : List Char} {c : Char}
    (h : (stripChars l).head? = some c) : isPySpace c = false := by
  have hpre : stripChars l <+: l.dropWhile isPySpace := by
    unfold stripChars
    have := List.reverse_prefix.mpr
      (List.dropWhile_suffix (l := (l.dropWhile isPySpace).reverse) isPySpace)
    rwa [List.reverse_reverse] at this
  rcases hpre with ⟨t, ht⟩
  cases hs : stripChars l with
  | nil => rw [hs] at h; cases h
  | cons c0 rest =>
    rw [hs] at h
    cases h
    rw [hs] at ht
    apply dropWhile_head_not (l := l)
    rw [← ht]
    rfl

lemma stripChars_getLast_not {l : List Char} {c : Char}
    (h : (stripChars l).getLast? = some c) : isPySpace c = false := by
  unfold stripChars at h
  rw [List.getLast?_reverse] at h
  exact dropWhile_head_not h

lemma stripChars_eq_self {l : List Char}
    (hh : ∀ c, l.head? = some c → isPySpace c = false)
    (hl : ∀ c, l.getLast? = some c → isPySpace c = false) : stripChars l = l := by
  unfold stripChars
  rw [dropWhile_eq_self_of_head hh]
  rw [dropWhile_eq_self_of_head (fun c hc => hl c (by rwa [List.head?_reverse] at hc))]
  exact List.reverse_reverse l

lemma map_eq_self_of {f : Char → Char} {l : List Char} (h : ∀ c ∈ l, f c = c) :
    l.map f = l := by
  rw [List.map_congr_left (g := id) h, List.map_id]

lemma normChars_fix {y : List Char}
    (hA : ∀ c ∈ y, isAllowedChar c = true)
    (hws : ∀ c ∈ y, isPySpace c = true → c = ' ')
    (hdash : ∀ c ∈ y, isDashChar c = true → c = '-')
    (hchainP : List.Chain' (fun a b => ¬ (isPySpace a = true ∧ isPySpace b = true)) y)
    (hchainD : List.Chain' (fun a b => ¬ (isDashChar a = true ∧ isDashChar b = true)) y)
    (hhead : ∀ c, y.head? = some c → isPySpace c = false)
    (hlast : ∀ c, y.getLast? = some c → isPySpace c = false) :
    normChars y = y := by
  unfold normChars
  rw [stripChars_eq_self hhead hlast]
  rw [map_eq_self_of (fun c hc => pyLowerChar_allowed (hA c hc))]
  rw [map_eq_self_of (fun c hc => by
    by_cases hp : isPySpace c = true
    · rw [hws c hc hp]; decide
    · exact nl_of_nonspace (by cases hq : isPySpace c; rfl; exact absurd hq hp))]
  rw [collapseRuns_eq_self hdash hchainD]
  rw [List.filter_eq_self.mpr hA]
  exact collapseRuns_eq_self hws hchainP

lemma normChars_eq_of_good {l : List Char} (hg : ∀ c ∈ l, goodHeaderChar c = true) :
    normChars l = collapseRuns isPySpace ' '
      (collapseRuns isDashChar '-' (((stripChars l).map pyLowerChar).map nlChar)) := by
  unfold normChars
  rw [List.filter_eq_self.mpr]
  intro c hc
  rcases collapseRuns_mem hc with rfl | ⟨hcm, _⟩
  · decide
  · rcases List.mem_map.mp hcm with ⟨c1, hc1, rfl⟩
    rcases List.mem_map.mp hc1 with ⟨c0, hc0, rfl⟩
    exact nl_allowed (lower_good (hg c0 (stripChars_mem hc0)))

lemma normChars_idem {l : List Char} (hg : ∀ c ∈ l, goodHeaderChar c = true) :
    normChars (normChars l) = normChars l := by
  rw [normChars_eq_of_good hg]
  have hmA : ∀ c ∈ ((stripChars l).map pyLowerChar).map nlChar,
      isAllowedChar c = true := by
    intro c hc
    rcases List.mem_map.mp hc with ⟨c1, hc1, rfl⟩
    rcases List.mem_map.mp hc1 with ⟨c0, hc0, rfl⟩
    exact nl_allowed (lower_good (hg c0 (stripChars_mem hc0)))
  have hmhead : ∀ c, (((stripChars l).map pyLowerChar).map nlChar).head? = some c →
      isPySpace c = false := by
    intro c hc
    rw [List.head?_map, List.head?_map] at hc
    cases hsh : (stripChars l).head? with
    | none => rw [hsh] at hc; cases hc
    | some c0 =>
      rw [hsh] at hc
      cases hc
      have h0 := stripChars_head_not hsh
      have h1 := lower_nonspace h0
      rw [nl_of_nonspace h1]
      exact h1
  have hmlast : ∀ c, (((stripChars l).map pyLowerChar).map nlChar).getLast? = some c →
      isPySpace c = false := by
    intro c hc
    rw [List.getLast?_map, List.getLast?_map] at hc
    cases hsh : (stripChars l).getLast? with
    | none => rw [hsh] at hc; cases hc
    | some c0 =>
      rw [hsh] at hc
      cases hc
      have h0 := stripChars_getLast_not hsh
      have h1 := lower_nonspace h0
      rw [nl_of_nonspace h1]
      exact h1
  have hxA : ∀ c ∈ collapseRuns isDashChar '-'
      (((stripChars l).map pyLowerChar).map nlChar), isAllowedChar c = true := by
    intro c hc
    rcases collapseRuns_mem hc with rfl | ⟨hcm, _⟩
    · decide
    · exact hmA c hcm
  have hxhead : ∀ c, (collapseRuns isDashChar '-'
      (((stripChars l).map pyLowerChar).map nlChar)).head? = some c →
      isPySpace c = false := by
    intro c hc
    cases hm : ((stripChars l).map pyLowerChar).map nlChar with
    | nil => rw [hm] at hc; cases hc
    | cons c0 t =>
      rw [hm] at hc
      rcases @collapseRuns_head isDashChar '-' c0 t with ⟨t2, ht2⟩
      rw [ht2] at hc
      cases hc
      split
      · decide
      · exact hmhead c0 (by rw [hm]; rfl)
  have hxlast : ∀ c, (collapseRuns isDashChar '-'
      (((stripChars l).map pyLowerChar).map nlChar)).getLast? = some c →
      isPySpace c = false := by
    intro c hc
    cases hm : (((stripChars l).map pyLowerChar).map nlChar).getLast? with
    | none =>
      cases hmm : ((stripChars l).map pyLowerChar).map nlChar with
      | nil => rw [hmm] at hc; cases hc
      | cons c0 t =>
        rw [hmm] at hm
        rw [List.getLast?_eq_none_iff] at hm
        cases hm
    | some c0 =>
      rw [collapseRuns_getLast hm] at hc
      cases hc
      have h0 := hmlast c0 hm
      split
      · decide
      · exact h0
  have hxchainD := @collapseRuns_chain isDashChar '-'
    (((stripChars l).map pyLowerChar).map nlChar)
  -- properties of the final normal form
  apply normChars_fix
  · intro c hc
    rcases collapseRuns_mem hc with rfl | ⟨hcm, _⟩
    · decide
    · exact hxA c hcm
  · intro c hc hp
    rcases collapseRuns_mem hc with rfl | ⟨hcm, hcp⟩
    · rfl
    · rw [hp] at hcp; cases hcp
  · intro c hc hd
    rcases collapseRuns_mem hc with rfl | ⟨hcm, hcp⟩
    · exact absurd hd (by decide)
    · rcases collapseRuns_mem hcm with rfl | ⟨hcm2, hcd⟩
      · rfl
      · rw [hd] at hcd; cases hcd
  · exact @collapseRuns_chain isPySpace ' ' _
  · exact @collapseRuns_chain_preserve isPySpace isDashChar ' ' (by decide) _ hxchainD
  · intro c hc
    cases hx : collapseRuns isDashChar '-'
        (((stripChars l).map pyLowerChar).map nlChar) with
    | nil => rw [hx] at hc; cases hc
    | cons c0 t =>
      rw [hx] at hc
      rcases @collapseRuns_head isPySpace ' ' c0 t with ⟨t2, ht2⟩
      rw [ht2] at hc
      cases hc
      have h0 : isPySpace c0 = false := hxhead c0 (by rw [hx]; rfl)
      rw [if_neg (by rw [h0]; exact Bool.false_ne_true)]
      exact h0
  · intro c hc
    cases hx : (collapseRuns isDashChar '-'
        (((stripChars l).map pyLowerChar).map nlChar)).getLast? with
    | none =>
      cases hxx : collapseRuns isDashChar '-'
          (((stripChars l).map pyLowerChar).map nlChar) with
      | nil => rw [hxx] at hc; cases hc
      | cons c0 t =>
        rw [hxx] at hx
        rw [List.getLast?_eq_none_iff] at hx
        cases hx
    | some c0 =>
      rw [collapseRuns_getLast hx] at hc
      cases hc
      have h0 := hxlast c0 hx
      rw [if_neg (by rw [h0]; exact Bool.false_ne_true)]
      exact h0

/-- Claim C5 (amended): `norm` is idempotent on every string whose
characters all lie in the kept class `[a-z0-9#/.\-\s()]` together with
the ASCII uppercase letters.  (On arbitrary strings idempotence fails:
removing a disallowed character can expose boundary whitespace or merge
two dash runs, as the counterexample shows.) -/
theorem c5_norm_idempotent_amended (s : String)
    (h : ∀ c ∈ s.toList, goodHeaderChar c = true) :
    normS (normS s) = normS s := by
  show String.mk (normChars (normChars s.toList)) = String.mk (normChars s.toList)
  rw [normChars_idem h]

/-- Witness for claim C5 at a concrete header text. -/
theorem c5_norm_idempotent_amended_witness :
    normS (normS "Make/ Reuse") = normS "Make/ Reuse" :=
  c5_norm_idempotent_amended "Make/ Reuse" (by decide)
